import Mathlib

/-!
Verification of the UniMRCP server-session core: the media-plane association
matrix (`trunk/libs/mpf/src/mpf_context.c`) and the server session
orchestrator (`trunk/libs/mrcp-server/src/mrcp_server_session.c`), as a
shallow embedding.

Machine-integer caveats: the C association counters `tx_count`/`rx_count`
have type `char`; they are modelled as unbounded `Int` (wrap-around at the
`char` width is not modelled).  `apr_size_t` values are modelled as `Nat`;
the sentinel `(apr_size_t)-1` used for an unattached termination slot is
modelled by the fixed constant `SLOT_NONE = 2^64 - 1`.
-/

namespace UniMrcp

/-- Codec descriptor, the part compared during topology compilation.
`mpf_codec_descriptor_t` itself is not in scope; only the fields that the
spec names for descriptor matching (codec identity, sampling rate, channel
count) plus `sampling_rate`, which `mpf_context_connection_create` reads
directly. -/
structure MpfCodecDescriptor where
  codec_id : Nat
  sampling_rate : Nat
  channel_count : Nat
deriving DecidableEq

/-- A codec handle (`mpf_codec_t`): its descriptor and whether its vtable
provides `decode` / `encode` entries (`rx_codec->vtable && rx_codec->vtable->decode`
is modelled as the single flag `has_decode`, and similarly for `encode`). -/
structure MpfCodec where
  descriptor : MpfCodecDescriptor
  has_decode : Bool
  has_encode : Bool
deriving DecidableEq

/-- Modelled from the spec: `mpf_codec_descriptors_match` (defined in
`mpf_codec.h`, which is not under `src/`) compares "codec, sample rate,
channels" of the two descriptors. -/
def mpf_codec_descriptors_match (d1 d2 : MpfCodecDescriptor) : Bool :=
  decide (d1 = d2)

/-- The part of `mpf_audio_stream_t` read by `mpf_context.c`: the direction
mask (bits `STREAM_MODE_SEND` / `STREAM_MODE_RECEIVE`, modelled as two
flags) and the rx / tx codec handles. -/
structure MpfAudioStream where
  mode_send : Bool
  mode_receive : Bool
  rx_codec : Option MpfCodec
  tx_codec : Option MpfCodec
deriving DecidableEq

/-- The part of `mpf_termination_t` read by `mpf_context.c`: the `slot`
back-index into the owning context and the (nullable) audio stream. -/
structure MpfTermination where
  slot : Nat
  audio_stream : Option MpfAudioStream
deriving DecidableEq

/-- The sentinel slot value `(apr_size_t)-1`. -/
def SLOT_NONE : Nat := 2 ^ 64 - 1

/-- `header_item_t`: one slot of the association-matrix header.  The
`termination` pointer is modelled as an optional termination id (an index
into the termination heap of `MpfSystem`). -/
structure HeaderItem where
  termination : Option Nat
  tx_count : Int
  rx_count : Int
deriving DecidableEq

/-- A compiled media-processing object, as constructed by
`mpf_context_connection_create`: either a null bridge or a regular bridge,
recording whether the source was wrapped in a decoder and the sink in an
encoder. -/
inductive MpfConnObject where
  | null_bridge : MpfConnObject
  | bridge (decoder_set : Bool) (encoder_set : Bool) : MpfConnObject
deriving DecidableEq

/-- `mpf_context_t`: capacity, current termination count, association-matrix
header, the boolean association matrix, the compiled topology objects, and
whether the context is currently linked into its factory's ring
(`APR_RING_INSERT_TAIL` / `APR_RING_REMOVE` on `factory->head`). -/
structure MpfContext where
  capacity : Nat
  count : Nat
  header : List HeaderItem
  matrix : List (List Bool)
  mpf_objects : List MpfConnObject
  inRing : Bool
deriving DecidableEq

/-- A context together with the heap of terminations it may reference;
termination ids are indices into `terms`. -/
structure MpfSystem where
  context : MpfContext
  terms : List MpfTermination
deriving DecidableEq

/-- Read header slot `i` (out-of-range reads give the empty slot). -/
def hget (h : List HeaderItem) (i : Nat) : HeaderItem :=
  h.getD i ⟨none, 0, 0⟩

/-- Replace header slot `i` by `f` of its current value. -/
def hmodify (h : List HeaderItem) (i : Nat) (f : HeaderItem → HeaderItem) :
    List HeaderItem :=
  h.set i (f (hget h i))

/-- Row `i` of the matrix. -/
def mrow (m : List (List Bool)) (i : Nat) : List Bool :=
  m.getD i []

/-- Matrix bit `matrix[i][j]` (out-of-range reads give `false`). -/
def mget (m : List (List Bool)) (i j : Nat) : Bool :=
  (mrow m i).getD j false

/-- Set matrix bit `matrix[i][j]` to `v`. -/
def mset (m : List (List Bool)) (i j : Nat) (v : Bool) : List (List Bool) :=
  m.set i ((mrow m i).set j v)

/-- Read termination `tid` from the heap (an invalid id reads as an
unattached termination with no stream). -/
def tget (ts : List MpfTermination) (tid : Nat) : MpfTermination :=
  ts.getD tid ⟨SLOT_NONE, none⟩

/-- `mpf_context_create`: empty header and matrix of the given capacity,
count 0, no compiled objects, not linked into the factory ring. -/
def mpf_context_create (cap : Nat) : MpfContext :=
  ⟨cap, 0, List.replicate cap ⟨none, 0, 0⟩,
    List.replicate cap (List.replicate cap false), [], false⟩

/-- A fresh system: a freshly created context over an arbitrary termination
heap. -/
def freshSystem (cap : Nat) (ts : List MpfTermination) : MpfSystem :=
  ⟨mpf_context_create cap, ts⟩

/-- `stream_mode_compatibility_check`: the source stream exists and may
receive, and the sink stream exists and may send. -/
def stream_mode_compatibility_check (t1 t2 : MpfTermination) : Bool :=
  match t1.audio_stream, t2.audio_stream with
  | some source, some sink => source.mode_receive && sink.mode_send
  | _, _ => false

/-- First free header slot, as found by the loop of
`mpf_context_termination_add`. -/
def firstFreeSlot (h : List HeaderItem) (cap : Nat) : Option Nat :=
  (List.range cap).find? (fun i => decide ((hget h i).termination = none))

/-- `mpf_context_termination_add`: store the termination in the first free
slot, reset that slot's counters, record the slot in the termination,
increment `count`, and link the context into the factory ring on the 0 → 1
transition.  Returns `false` when every slot is occupied. -/
def mpf_context_termination_add (s : MpfSystem) (tid : Nat) :
    Bool × MpfSystem :=
  let c := s.context
  match firstFreeSlot c.header c.capacity with
  | none => (false, s)
  | some i =>
    let inRing := if c.count = 0 then true else c.inRing
    let header := c.header.set i ⟨some tid, 0, 0⟩
    let terms := s.terms.set tid { tget s.terms tid with slot := i }
    (true, ⟨⟨c.capacity, c.count + 1, header, c.matrix, c.mpf_objects, inRing⟩,
      terms⟩)

/-- Clear matrix bit `(a, b)` if set, decrementing `tx_count` of slot `a`
and `rx_count` of slot `b` (the common step of
`mpf_context_termination_subtract`, `mpf_context_association_remove` and
`mpf_context_associations_reset`). -/
def clearStep (h : List HeaderItem) (m : List (List Bool)) (a b : Nat) :
    List HeaderItem × List (List Bool) :=
  if mget m a b then
    (hmodify (hmodify h a (fun x => { x with tx_count := x.tx_count - 1 }))
      b (fun x => { x with rx_count := x.rx_count - 1 }),
      mset m a b false)
  else (h, m)

/-- Clear both directions between slots `i` and `j`: first `i → j`, then
`j → i` (the per-`j` body shared by the subtract and reset loops). -/
def clearPairAt (i : Nat) (st : List HeaderItem × List (List Bool))
    (j : Nat) : List HeaderItem × List (List Bool) :=
  let st1 := clearStep st.1 st.2 i j
  clearStep st1.1 st1.2 j i

/-- Loop body of `mpf_context_termination_subtract`: iterate `j` while
`k < count`, skipping empty slots and clearing both directions between the
subtracted slot `i` and each occupied slot `j`. -/
def subtractBody (cnt i : Nat)
    (st : (List HeaderItem × List (List Bool)) × Nat) (j : Nat) :
    (List HeaderItem × List (List Bool)) × Nat :=
  if st.2 < cnt then
    if (hget st.1.1 j).termination = none then st
    else (clearPairAt i st.1 j, st.2 + 1)
  else st

/-- The subtract loop: fold `subtractBody` over `j = 0, …, n-1` starting
from the given header/matrix with `k = 0`. -/
def subtractFold (cnt i : Nat) (h : List HeaderItem) (m : List (List Bool))
    (n : Nat) : (List HeaderItem × List (List Bool)) × Nat :=
  (List.range n).foldl (subtractBody cnt i) ((h, m), 0)

/-- `mpf_context_termination_subtract`: fail when `termination->slot` is out
of range or the slot does not hold this termination; otherwise clear row and
column `i`, adjusting the other endpoints' counters, empty the slot, mark
the termination unattached, decrement `count` and unlink from the factory
ring on the 1 → 0 transition. -/
def mpf_context_termination_subtract (s : MpfSystem) (tid : Nat) :
    Bool × MpfSystem :=
  let c := s.context
  let t := tget s.terms tid
  let i := t.slot
  if c.capacity ≤ i then (false, s)
  else if (hget c.header i).termination ≠ some tid then (false, s)
  else
    let st := subtractFold c.count i c.header c.matrix c.capacity
    let header := hmodify st.1.1 i (fun x => { x with termination := none })
    let terms := s.terms.set tid { t with slot := SLOT_NONE }
    let count := c.count - 1
    let inRing := if count = 0 then false else c.inRing
    (true, ⟨⟨c.capacity, count, header, st.1.2, c.mpf_objects, inRing⟩, terms⟩)

/-- One direction `a → b` of `mpf_context_association_add`: if the bit is
clear and the source may receive while the sink may send, set the bit and
bump `tx_count` of `a` and `rx_count` of `b`. -/
def assocSetDir (src snk : MpfTermination)
    (st : List HeaderItem × List (List Bool)) (a b : Nat) :
    List HeaderItem × List (List Bool) :=
  if ¬ mget st.2 a b ∧ stream_mode_compatibility_check src snk then
    (hmodify (hmodify st.1 a (fun x => { x with tx_count := x.tx_count + 1 }))
      b (fun x => { x with rx_count := x.rx_count + 1 }),
      mset st.2 a b true)
  else st

/-- `mpf_context_association_add`: fail when either slot is out of range or
does not hold the given termination; otherwise try to set each direction
independently (an incompatible direction is silently skipped) and return
`true`. -/
def mpf_context_association_add (s : MpfSystem) (tid1 tid2 : Nat) :
    Bool × MpfSystem :=
  let c := s.context
  let t1 := tget s.terms tid1
  let t2 := tget s.terms tid2
  let i := t1.slot
  let j := t2.slot
  if c.capacity ≤ i ∨ c.capacity ≤ j then (false, s)
  else if (hget c.header i).termination ≠ some tid1 ∨
      (hget c.header j).termination ≠ some tid2 then (false, s)
  else
    let st1 := assocSetDir t1 t2 (c.header, c.matrix) i j
    let st2 := assocSetDir t2 t1 st1 j i
    (true, ⟨{ c with header := st2.1, matrix := st2.2 }, s.terms⟩)

/-- `mpf_context_association_remove`: fail when either slot is out of range
or does not hold the given termination; otherwise clear each direction that
is set, decrementing the matching counters, and return `true`. -/
def mpf_context_association_remove (s : MpfSystem) (tid1 tid2 : Nat) :
    Bool × MpfSystem :=
  let c := s.context
  let t1 := tget s.terms tid1
  let t2 := tget s.terms tid2
  let i := t1.slot
  let j := t2.slot
  if c.capacity ≤ i ∨ c.capacity ≤ j then (false, s)
  else if (hget c.header i).termination ≠ some tid1 ∨
      (hget c.header j).termination ≠ some tid2 then (false, s)
  else
    let st1 := clearStep c.header c.matrix i j
    let st2 := clearStep st1.1 st1.2 j i
    (true, ⟨{ c with header := st2.1, matrix := st2.2 }, s.terms⟩)

/-- `mpf_context_topology_destroy`: run the destructor of every compiled
object (external side effects) and empty the object array. -/
def mpf_context_topology_destroy (c : MpfContext) : MpfContext :=
  { c with mpf_objects := [] }

/-- Inner loop body of `mpf_context_associations_reset`: for `j` running
from `i`, skip empty slots, otherwise clear both directions between `i` and
`j`. -/
def resetInnerBody (i : Nat) (st : List HeaderItem × List (List Bool))
    (j : Nat) : List HeaderItem × List (List Bool) :=
  if (hget st.1 j).termination = none then st
  else clearPairAt i st j

/-- Outer loop body of `mpf_context_associations_reset`: iterate `i` while
`k < count`, skipping empty slots and slots whose `tx_count` and `rx_count`
are both already 0, and otherwise clearing every pair `(i, j)` with
`j ≥ i`. -/
def resetOuterBody (cap cnt : Nat)
    (st : (List HeaderItem × List (List Bool)) × Nat) (i : Nat) :
    (List HeaderItem × List (List Bool)) × Nat :=
  if st.2 < cnt then
    if (hget st.1.1 i).termination = none then st
    else if (hget st.1.1 i).tx_count = 0 ∧ (hget st.1.1 i).rx_count = 0 then
      (st.1, st.2 + 1)
    else
      ((List.range' i (cap - i)).foldl (resetInnerBody i) st.1, st.2 + 1)
  else st

/-- The reset loop: fold `resetOuterBody` over `i = 0, …, n-1` starting
from the given header/matrix with `k = 0`. -/
def resetFold (cap cnt : Nat) (h : List HeaderItem) (m : List (List Bool))
    (n : Nat) : (List HeaderItem × List (List Bool)) × Nat :=
  (List.range n).foldl (resetOuterBody cap cnt) ((h, m), 0)

/-- `mpf_context_associations_reset`: destroy the compiled topology, then
walk the occupied rows (while `k < count`) and clear every remaining
association bit, adjusting the counters; always returns `true`. -/
def mpf_context_associations_reset (s : MpfSystem) : Bool × MpfSystem :=
  let c := mpf_context_topology_destroy s.context
  let st := resetFold c.capacity c.count c.header c.matrix c.capacity
  (true, ⟨{ c with header := st.1.1, matrix := st.1.2 }, s.terms⟩)

/-- `mpf_context_connection_create`: build the stream-processing object for
the directed edge from `src_termination` to `sink_termination`, or nothing
when the modes are incompatible, a codec is missing, or the sampling rates
differ without a descriptor match. -/
def mpf_context_connection_create
    (src_termination sink_termination : Option MpfTermination) :
    Option MpfConnObject :=
  match src_termination, sink_termination with
  | some src, some snk =>
    match src.audio_stream, snk.audio_stream with
    | some source, some sink =>
      if source.mode_receive && sink.mode_send then
        match source.rx_codec, sink.tx_codec with
        | some rx_codec, some tx_codec =>
          if mpf_codec_descriptors_match rx_codec.descriptor
              tx_codec.descriptor then
            some MpfConnObject.null_bridge
          else if rx_codec.descriptor.sampling_rate ≠
              tx_codec.descriptor.sampling_rate then
            none
          else
            some (MpfConnObject.bridge rx_codec.has_decode tx_codec.has_encode)
        | _, _ => none
      else none
    | _, _ => none
  | _, _ => none

/-- The media-context operations whose sequences claim C1 quantifies over. -/
inductive MpfOp where
  | add (tid : Nat) : MpfOp
  | sub (tid : Nat) : MpfOp
  | assoc (tid1 tid2 : Nat) : MpfOp
  | deassoc (tid1 tid2 : Nat) : MpfOp
  | reset : MpfOp
deriving DecidableEq

/-- Apply one media-context operation (discarding the status result). -/
def applyOp (s : MpfSystem) : MpfOp → MpfSystem
  | .add tid => (mpf_context_termination_add s tid).2
  | .sub tid => (mpf_context_termination_subtract s tid).2
  | .assoc t1 t2 => (mpf_context_association_add s t1 t2).2
  | .deassoc t1 t2 => (mpf_context_association_remove s t1 t2).2
  | .reset => (mpf_context_associations_reset s).2

/-- Apply a sequence of media-context operations. -/
def applyOps (s : MpfSystem) (ops : List MpfOp) : MpfSystem :=
  ops.foldl applyOp s

/-! ### Invariant definitions for the media context -/

/-- Number of set bits in row `i` of the matrix (as an `Int`, to compare
with the `tx_count` counter). -/
def rowSum (cap : Nat) (m : List (List Bool)) (i : Nat) : Int :=
  ∑ j ∈ Finset.range cap, (if mget m i j then 1 else 0)

/-- Number of set bits in column `j` of the matrix. -/
def colSum (cap : Nat) (m : List (List Bool)) (j : Nat) : Int :=
  ∑ i ∈ Finset.range cap, (if mget m i j then 1 else 0)

/-- Whether header slot `i` is occupied. -/
def occB (h : List HeaderItem) (i : Nat) : Bool :=
  ((hget h i).termination).isSome

/-- Number of occupied header slots. -/
def countOcc (cap : Nat) (h : List HeaderItem) : Nat :=
  ((Finset.range cap).filter (fun i => occB h i = true)).card

/-- Structural and counting invariant of a header/matrix pair: the shapes
match the capacity, every slot's counters equal its row and column bit
counts, and every set bit joins two occupied slots. -/
structure CoreInv (cap : Nat) (h : List HeaderItem)
    (m : List (List Bool)) : Prop where
  hlen : h.length = cap
  mlen : m.length = cap
  rlen : ∀ i < cap, (mrow m i).length = cap
  counts : ∀ i, (hget h i).tx_count = rowSum cap m i ∧
    (hget h i).rx_count = colSum cap m i
  bits : ∀ i j, mget m i j = true → occB h i = true ∧ occB h j = true

/-- Full context invariant: core invariant plus count and ring agreement. -/
def CtxInv (c : MpfContext) : Prop :=
  CoreInv c.capacity c.header c.matrix ∧
  c.count = countOcc c.capacity c.header ∧
  (c.inRing = true ↔ 0 < c.count)

/-- The property asserted by claim C1: every occupied slot's counters match
its row and column bit counts, `count` equals the number of occupied slots,
and the context is linked into the factory ring iff `count > 0`. -/
def ClaimInvariant (c : MpfContext) : Prop :=
  (∀ i < c.capacity, occB c.header i = true →
    (hget c.header i).tx_count = rowSum c.capacity c.matrix i ∧
    (hget c.header i).rx_count = colSum c.capacity c.matrix i) ∧
  c.count = countOcc c.capacity c.header ∧
  (c.inRing = true ↔ 0 < c.count)

/-- The spec's "count invariants" 1 – 3 exactly as written (§8, items 1 – 3):
counter/matrix agreement at every slot, `count` = number of occupied slots,
ring membership iff non-empty.  (Unlike `CtxInv` this does not require set
bits to join occupied slots.) -/
def specCountInvariants (c : MpfContext) : Prop :=
  (∀ i < c.capacity,
    (hget c.header i).tx_count = rowSum c.capacity c.matrix i ∧
    (hget c.header i).rx_count = colSum c.capacity c.matrix i) ∧
  c.count = countOcc c.capacity c.header ∧
  (c.inRing = true ↔ 0 < c.count)

/-! ### Basic facts about the accessors -/

theorem hget_set_self {h : List HeaderItem} {i : Nat} {v : HeaderItem}
    (hi : i < h.length) : hget (h.set i v) i = v := by
  simp [hget, List.getD_eq_getElem?_getD, List.getElem?_set_self hi]

theorem hget_set_ne {h : List HeaderItem} {i j : Nat} {v : HeaderItem}
    (hij : i ≠ j) : hget (h.set i v) j = hget h j := by
  simp [hget, List.getD_eq_getElem?_getD, List.getElem?_set_ne hij]

theorem hget_hmodify_self {h : List HeaderItem} {i : Nat}
    {f : HeaderItem → HeaderItem} (hi : i < h.length) :
    hget (hmodify h i f) i = f (hget h i) :=
  hget_set_self hi

theorem hget_hmodify_ne {h : List HeaderItem} {i j : Nat}
    {f : HeaderItem → HeaderItem} (hij : i ≠ j) :
    hget (hmodify h i f) j = hget h j :=
  hget_set_ne hij

theorem length_hmodify (h : List HeaderItem) (i : Nat)
    (f : HeaderItem → HeaderItem) : (hmodify h i f).length = h.length :=
  List.length_set ..

theorem hget_default {h : List HeaderItem} {i : Nat} (hi : h.length ≤ i) :
    hget h i = ⟨none, 0, 0⟩ := by
  simp [hget, List.getD_eq_getElem?_getD, List.getElem?_eq_none hi]

theorem hget_hmodify_counts {h : List HeaderItem} {i j : Nat}
    {f : HeaderItem → HeaderItem}
    (hf : ∀ x, (f x).termination = x.termination) :
    (hget (hmodify h i f) j).termination = (hget h j).termination := by
  by_cases hij : i = j
  · subst hij
    by_cases hi : i < h.length
    · rw [hget_hmodify_self hi, hf]
    · unfold hmodify
      rw [List.set_eq_of_length_le (Nat.le_of_not_lt hi)]
  · rw [hget_hmodify_ne hij]

theorem occB_hmodify {h : List HeaderItem} {i j : Nat}
    {f : HeaderItem → HeaderItem}
    (hf : ∀ x, (f x).termination = x.termination) :
    occB (hmodify h i f) j = occB h j := by
  unfold occB
  rw [hget_hmodify_counts hf]

theorem mrow_set_self {m : List (List Bool)} {i : Nat} {r : List Bool}
    (hi : i < m.length) : mrow (m.set i r) i = r := by
  simp [mrow, List.getD_eq_getElem?_getD, List.getElem?_set_self hi]

theorem mrow_set_ne {m : List (List Bool)} {i x : Nat} {r : List Bool}
    (hix : i ≠ x) : mrow (m.set i r) x = mrow m x := by
  simp [mrow, List.getD_eq_getElem?_getD, List.getElem?_set_ne hix]

theorem mrow_default {m : List (List Bool)} {i : Nat} (hi : m.length ≤ i) :
    mrow m i = [] := by
  simp [mrow, List.getD_eq_getElem?_getD, List.getElem?_eq_none hi]

theorem mget_true_left_lt {m : List (List Bool)} {i j : Nat}
    (h : mget m i j = true) : i < m.length := by
  by_contra hc
  rw [mget, mrow_default (Nat.le_of_not_lt hc)] at h
  simp at h

theorem mget_true_right_lt {m : List (List Bool)} {i j : Nat}
    (h : mget m i j = true) : j < (mrow m i).length := by
  by_contra hc
  rw [mget, List.getD_eq_getElem?_getD,
    List.getElem?_eq_none (Nat.le_of_not_lt hc)] at h
  simp at h

theorem length_mset (m : List (List Bool)) (i j : Nat) (v : Bool) :
    (mset m i j v).length = m.length :=
  List.length_set ..

theorem mrow_mset_length (m : List (List Bool)) (i j x : Nat) (v : Bool) :
    (mrow (mset m i j v) x).length = (mrow m x).length := by
  unfold mset
  by_cases hix : i = x
  · subst hix
    by_cases hi : i < m.length
    · rw [mrow_set_self hi, List.length_set]
    · rw [List.set_eq_of_length_le (Nat.le_of_not_lt hi)]
  · rw [mrow_set_ne hix]

theorem mget_mset_self {m : List (List Bool)} {i j : Nat} {v : Bool}
    (hi : i < m.length) (hj : j < (mrow m i).length) :
    mget (mset m i j v) i j = v := by
  unfold mget mset
  rw [mrow_set_self hi]
  simp [List.getD_eq_getElem?_getD, List.getElem?_set_self hj]

theorem mget_mset_ne {m : List (List Bool)} {i j x y : Nat} {v : Bool}
    (hne : x ≠ i ∨ y ≠ j) : mget (mset m i j v) x y = mget m x y := by
  unfold mget mset
  by_cases hix : i = x
  · subst hix
    have hyj : y ≠ j := hne.resolve_left (by simp)
    by_cases hi : i < m.length
    · rw [mrow_set_self hi]
      simp [List.getD_eq_getElem?_getD,
        List.getElem?_set_ne (fun he => hyj he.symm)]
    · rw [List.set_eq_of_length_le (Nat.le_of_not_lt hi)]
  · rw [mrow_set_ne hix]

/-! ### Row/column sums and occupancy counts under updates -/

theorem rowSum_congr {cap : Nat} {m1 m2 : List (List Bool)} {i : Nat}
    (h : ∀ j, j < cap → mget m1 i j = mget m2 i j) :
    rowSum cap m1 i = rowSum cap m2 i := by
  unfold rowSum
  exact Finset.sum_congr rfl fun j hj => by
    rw [h j (Finset.mem_range.mp hj)]

theorem colSum_congr {cap : Nat} {m1 m2 : List (List Bool)} {j : Nat}
    (h : ∀ i, i < cap → mget m1 i j = mget m2 i j) :
    colSum cap m1 j = colSum cap m2 j := by
  unfold colSum
  exact Finset.sum_congr rfl fun i hi => by
    rw [h i (Finset.mem_range.mp hi)]

theorem rowSum_mset_self {cap : Nat} {m : List (List Bool)} {a b : Nat}
    {v : Bool} (ha : a < m.length) (hb : b < (mrow m a).length)
    (hbcap : b < cap) :
    rowSum cap (mset m a b v) a =
      rowSum cap m a - (if mget m a b then 1 else 0) +
        (if v then 1 else 0) := by
  unfold rowSum
  have hbmem : b ∈ Finset.range cap := Finset.mem_range.mpr hbcap
  rw [← Finset.add_sum_erase _ _ hbmem,
    ← Finset.add_sum_erase _ (fun j => if mget m a j then (1 : Int) else 0)
      hbmem]
  have herase : ∑ j ∈ (Finset.range cap).erase b,
      (if mget (mset m a b v) a j then (1 : Int) else 0) =
      ∑ j ∈ (Finset.range cap).erase b,
      (if mget m a j then (1 : Int) else 0) := by
    refine Finset.sum_congr rfl fun j hj => ?_
    rw [mget_mset_ne (Or.inr (Finset.ne_of_mem_erase hj))]
  rw [herase, mget_mset_self ha hb]
  omega

theorem rowSum_mset_other {cap : Nat} {m : List (List Bool)} {a b x : Nat}
    {v : Bool} (hxa : x ≠ a) :
    rowSum cap (mset m a b v) x = rowSum cap m x :=
  rowSum_congr fun j _ => mget_mset_ne (Or.inl hxa)

theorem colSum_mset_self {cap : Nat} {m : List (List Bool)} {a b : Nat}
    {v : Bool} (ha : a < m.length) (hb : b < (mrow m a).length)
    (hacap : a < cap) :
    colSum cap (mset m a b v) b =
      colSum cap m b - (if mget m a b then 1 else 0) +
        (if v then 1 else 0) := by
  unfold colSum
  have hamem : a ∈ Finset.range cap := Finset.mem_range.mpr hacap
  rw [← Finset.add_sum_erase _ _ hamem,
    ← Finset.add_sum_erase _ (fun i => if mget m i b then (1 : Int) else 0)
      hamem]
  have herase : ∑ i ∈ (Finset.range cap).erase a,
      (if mget (mset m a b v) i b then (1 : Int) else 0) =
      ∑ i ∈ (Finset.range cap).erase a,
      (if mget m i b then (1 : Int) else 0) := by
    refine Finset.sum_congr rfl fun i hi => ?_
    rw [mget_mset_ne (Or.inl (Finset.ne_of_mem_erase hi))]
  rw [herase, mget_mset_self ha hb]
  omega

theorem colSum_mset_other {cap : Nat} {m : List (List Bool)} {a b y : Nat}
    {v : Bool} (hyb : y ≠ b) :
    colSum cap (mset m a b v) y = colSum cap m y :=
  colSum_congr fun i _ => mget_mset_ne (Or.inr hyb)

theorem rowSum_eq_zero {cap : Nat} {m : List (List Bool)} {i : Nat}
    (h : ∀ j, j < cap → mget m i j = false) : rowSum cap m i = 0 := by
  unfold rowSum
  exact Finset.sum_eq_zero fun j hj => by
    rw [h j (Finset.mem_range.mp hj)]; rfl

theorem colSum_eq_zero {cap : Nat} {m : List (List Bool)} {j : Nat}
    (h : ∀ i, i < cap → mget m i j = false) : colSum cap m j = 0 := by
  unfold colSum
  exact Finset.sum_eq_zero fun i hi => by
    rw [h i (Finset.mem_range.mp hi)]; rfl

theorem rowSum_zero_bits {cap : Nat} {m : List (List Bool)} {i : Nat}
    (h : rowSum cap m i = 0) : ∀ j, j < cap → mget m i j = false := by
  intro j hj
  have hnn : ∀ x ∈ Finset.range cap,
      (0 : Int) ≤ (if mget m i x then 1 else 0) := by
    intro x _
    split <;> omega
  have := (Finset.sum_eq_zero_iff_of_nonneg hnn).mp h j
    (Finset.mem_range.mpr hj)
  by_contra hc
  rw [Bool.not_eq_false] at hc
  rw [hc] at this
  simp at this

theorem colSum_zero_bits {cap : Nat} {m : List (List Bool)} {j : Nat}
    (h : colSum cap m j = 0) : ∀ i, i < cap → mget m i j = false := by
  intro i hi
  have hnn : ∀ x ∈ Finset.range cap,
      (0 : Int) ≤ (if mget m x j then 1 else 0) := by
    intro x _
    split <;> omega
  have := (Finset.sum_eq_zero_iff_of_nonneg hnn).mp h i
    (Finset.mem_range.mpr hi)
  by_contra hc
  rw [Bool.not_eq_false] at hc
  rw [hc] at this
  simp at this

theorem countOcc_congr {cap : Nat} {h1 h2 : List HeaderItem}
    (h : ∀ i, i < cap → occB h1 i = occB h2 i) :
    countOcc cap h1 = countOcc cap h2 := by
  unfold countOcc
  congr 1
  refine Finset.filter_congr fun i hi => ?_
  rw [h i (Finset.mem_range.mp hi)]

theorem countOcc_set_occupy {cap : Nat} {h : List HeaderItem} {i : Nat}
    {v : HeaderItem} (hi : i < cap) (hlen : i < h.length)
    (hocc : occB h i = false) (hv : v.termination.isSome = true) :
    countOcc cap (h.set i v) = countOcc cap h + 1 := by
  unfold countOcc
  have hins : (Finset.range cap).filter (fun x => occB (h.set i v) x = true)
      = insert i ((Finset.range cap).filter (fun x => occB h x = true)) := by
    ext x
    simp only [Finset.mem_filter, Finset.mem_insert, Finset.mem_range]
    constructor
    · rintro ⟨hx, hox⟩
      by_cases hxi : x = i
      · exact Or.inl hxi
      · refine Or.inr ⟨hx, ?_⟩
        rwa [occB, hget_set_ne (fun he => hxi he.symm)] at hox
    · rintro (rfl | ⟨hx, hox⟩)
      · exact ⟨hi, by rw [occB, hget_set_self hlen]; exact hv⟩
      · by_cases hxi : x = i
        · subst hxi
          rw [hocc] at hox
          simp at hox
        · exact ⟨hx, by rwa [occB, hget_set_ne (fun he => hxi he.symm)]⟩
  rw [hins, Finset.card_insert_of_not_mem]
  simp only [Finset.mem_filter, Finset.mem_range, not_and]
  intro _
  rw [hocc]
  simp

theorem countOcc_set_vacate {cap : Nat} {h : List HeaderItem} {i : Nat}
    {v : HeaderItem} (hi : i < cap) (hlen : i < h.length)
    (hocc : occB h i = true) (hv : v.termination = none) :
    countOcc cap h = countOcc cap (h.set i v) + 1 := by
  unfold countOcc
  have hins : (Finset.range cap).filter (fun x => occB h x = true)
      = insert i ((Finset.range cap).filter
          (fun x => occB (h.set i v) x = true)) := by
    ext x
    simp only [Finset.mem_filter, Finset.mem_insert, Finset.mem_range]
    constructor
    · rintro ⟨hx, hox⟩
      by_cases hxi : x = i
      · exact Or.inl hxi
      · refine Or.inr ⟨hx, ?_⟩
        rwa [occB, hget_set_ne (fun he => hxi he.symm)]
    · rintro (rfl | ⟨hx, hox⟩)
      · exact ⟨hi, hocc⟩
      · by_cases hxi : x = i
        · subst hxi
          rw [occB, hget_set_self hlen, hv] at hox
          simp at hox
        · exact ⟨hx, by rwa [occB, hget_set_ne (fun he => hxi he.symm)] at hox⟩
  rw [hins, Finset.card_insert_of_not_mem]
  simp only [Finset.mem_filter, Finset.mem_range, not_and]
  intro _
  rw [occB, hget_set_self hlen, hv]
  simp

/-! ### Properties of the shared clear/set steps -/

theorem clearStep_of_false {h : List HeaderItem} {m : List (List Bool)}
    {a b : Nat} (hbit : mget m a b = false) : clearStep h m a b = (h, m) := by
  simp [clearStep, hbit]

theorem clearStep_header_length (h : List HeaderItem) (m : List (List Bool))
    (a b : Nat) : (clearStep h m a b).1.length = h.length := by
  unfold clearStep
  by_cases hbit : mget m a b = true
  · simp only [hbit, if_true, length_hmodify]
  · simp only [Bool.not_eq_true] at hbit
    simp [hbit]

theorem clearStep_matrix_length (h : List HeaderItem) (m : List (List Bool))
    (a b : Nat) : (clearStep h m a b).2.length = m.length := by
  unfold clearStep
  by_cases hbit : mget m a b = true
  · simp only [hbit, if_true, length_mset]
  · simp only [Bool.not_eq_true] at hbit
    simp [hbit]

theorem clearStep_row_length (h : List HeaderItem) (m : List (List Bool))
    (a b x : Nat) :
    (mrow (clearStep h m a b).2 x).length = (mrow m x).length := by
  unfold clearStep
  by_cases hbit : mget m a b = true
  · simp only [hbit, if_true, mrow_mset_length]
  · simp only [Bool.not_eq_true] at hbit
    simp [hbit]

theorem clearStep_occB (h : List HeaderItem) (m : List (List Bool))
    (a b x : Nat) : occB (clearStep h m a b).1 x = occB h x := by
  unfold clearStep
  by_cases hbit : mget m a b = true
  · simp only [hbit, if_true]
    rw [occB_hmodify (f := fun z => { z with rx_count := z.rx_count - 1 })
      (fun _ => rfl),
      occB_hmodify (f := fun z => { z with tx_count := z.tx_count - 1 })
      (fun _ => rfl)]
  · simp only [Bool.not_eq_true] at hbit
    simp [hbit]

theorem clearStep_mget_self (h : List HeaderItem) (m : List (List Bool))
    (a b : Nat) : mget (clearStep h m a b).2 a b = false := by
  unfold clearStep
  by_cases hbit : mget m a b = true
  · simp only [hbit, if_true]
    exact mget_mset_self (mget_true_left_lt hbit) (mget_true_right_lt hbit)
  · simp only [Bool.not_eq_true] at hbit
    simp [hbit]

theorem clearStep_mget_ne {h : List HeaderItem} {m : List (List Bool)}
    {a b x y : Nat} (hne : x ≠ a ∨ y ≠ b) :
    mget (clearStep h m a b).2 x y = mget m x y := by
  unfold clearStep
  by_cases hbit : mget m a b = true
  · simp only [hbit, if_true]
    exact mget_mset_ne hne
  · simp only [Bool.not_eq_true] at hbit
    simp [hbit]

theorem clearStep_clears_only {h : List HeaderItem} {m : List (List Bool)}
    {a b x y : Nat} (hc : mget (clearStep h m a b).2 x y = true) :
    mget m x y = true := by
  by_cases hne : x = a ∧ y = b
  · obtain ⟨rfl, rfl⟩ := hne
    rw [clearStep_mget_self] at hc
    exact absurd hc (by simp)
  · rw [Classical.not_and_iff_or_not_not] at hne
    rwa [clearStep_mget_ne hne] at hc

theorem clearStep_coreInv {cap : Nat} {h : List HeaderItem}
    {m : List (List Bool)} {a b : Nat} (hinv : CoreInv cap h m) :
    CoreInv cap (clearStep h m a b).1 (clearStep h m a b).2 := by
  by_cases hbit : mget m a b = true
  · have ham : a < m.length := mget_true_left_lt hbit
    have hbr : b < (mrow m a).length := mget_true_right_lt hbit
    have hacap : a < cap := hinv.mlen ▸ ham
    have hbcap : b < cap := hinv.rlen a hacap ▸ hbr
    have hah : a < h.length := hinv.hlen ▸ hacap
    refine ⟨?_, ?_, ?_, ?_, ?_⟩
    · rw [clearStep_header_length, hinv.hlen]
    · rw [clearStep_matrix_length, hinv.mlen]
    · intro i hi
      rw [clearStep_row_length]
      exact hinv.rlen i hi
    · intro x
      unfold clearStep
      simp only [hbit, if_true]
      have hbh : b < (hmodify h a
          (fun z => { z with tx_count := z.tx_count - 1 })).length := by
        rw [length_hmodify]
        exact hinv.hlen ▸ hbcap
      constructor
      · -- tx_count of x matches the new row sum
        by_cases hxa : x = a
        · subst hxa
          rw [rowSum_mset_self ham hbr hbcap, hbit]
          by_cases hxb : x = b
          · subst hxb
            rw [hget_hmodify_self hbh, hget_hmodify_self hah]
            simp [(hinv.counts x).1]
          · rw [hget_hmodify_ne (fun he => hxb he.symm),
              hget_hmodify_self hah]
            simp [(hinv.counts x).1]
        · rw [rowSum_mset_other hxa]
          by_cases hxb : x = b
          · subst hxb
            rw [hget_hmodify_self hbh, hget_hmodify_ne
              (fun he => hxa he.symm)]
            exact (hinv.counts x).1
          · rw [hget_hmodify_ne (fun he => hxb he.symm),
              hget_hmodify_ne (fun he => hxa he.symm)]
            exact (hinv.counts x).1
      · -- rx_count of x matches the new column sum
        by_cases hxb : x = b
        · subst hxb
          rw [colSum_mset_self ham hbr hacap, hbit]
          by_cases hxa : x = a
          · subst hxa
            rw [hget_hmodify_self hbh, hget_hmodify_self hah]
            simp [(hinv.counts x).2]
          · rw [hget_hmodify_self hbh,
              hget_hmodify_ne (fun he => hxa he.symm)]
            simp [(hinv.counts x).2]
        · rw [colSum_mset_other hxb]
          by_cases hxa : x = a
          · subst hxa
            rw [hget_hmodify_ne (fun he => hxb he.symm),
              hget_hmodify_self hah]
            simp [(hinv.counts x).2]
          · rw [hget_hmodify_ne (fun he => hxb he.symm),
              hget_hmodify_ne (fun he => hxa he.symm)]
            exact (hinv.counts x).2
    · intro x y hxy
      rw [clearStep_occB, clearStep_occB]
      exact hinv.bits x y (clearStep_clears_only hxy)
  · simp only [Bool.not_eq_true] at hbit
    rw [clearStep_of_false hbit]
    exact hinv

theorem assocSetDir_eq_of_guard {src snk : MpfTermination}
    {st : List HeaderItem × List (List Bool)} {a b : Nat}
    (hg : ¬ (¬ mget st.2 a b ∧ stream_mode_compatibility_check src snk)) :
    assocSetDir src snk st a b = st := by
  simp only [assocSetDir]
  rw [if_neg hg]

theorem assocSetDir_header_length (src snk : MpfTermination)
    (st : List HeaderItem × List (List Bool)) (a b : Nat) :
    (assocSetDir src snk st a b).1.length = st.1.length := by
  unfold assocSetDir
  split
  · simp [length_hmodify]
  · rfl

theorem assocSetDir_matrix_length (src snk : MpfTermination)
    (st : List HeaderItem × List (List Bool)) (a b : Nat) :
    (assocSetDir src snk st a b).2.length = st.2.length := by
  unfold assocSetDir
  split
  · simp [length_mset]
  · rfl

theorem assocSetDir_row_length (src snk : MpfTermination)
    (st : List HeaderItem × List (List Bool)) (a b x : Nat) :
    (mrow (assocSetDir src snk st a b).2 x).length =
      (mrow st.2 x).length := by
  unfold assocSetDir
  split
  · simp [mrow_mset_length]
  · rfl

theorem assocSetDir_occB (src snk : MpfTermination)
    (st : List HeaderItem × List (List Bool)) (a b x : Nat) :
    occB (assocSetDir src snk st a b).1 x = occB st.1 x := by
  unfold assocSetDir
  split
  · simp only
    rw [occB_hmodify (f := fun z => { z with rx_count := z.rx_count + 1 })
      (fun _ => rfl),
      occB_hmodify (f := fun z => { z with tx_count := z.tx_count + 1 })
      (fun _ => rfl)]
  · rfl

theorem assocSetDir_mget_ne {src snk : MpfTermination}
    {st : List HeaderItem × List (List Bool)} {a b x y : Nat}
    (hne : x ≠ a ∨ y ≠ b) :
    mget (assocSetDir src snk st a b).2 x y = mget st.2 x y := by
  unfold assocSetDir
  split
  · exact mget_mset_ne hne
  · rfl

theorem assocSetDir_coreInv {cap : Nat} {src snk : MpfTermination}
    {st : List HeaderItem × List (List Bool)} {a b : Nat}
    (hinv : CoreInv cap st.1 st.2) (ha : a < cap) (hb : b < cap)
    (hoa : occB st.1 a = true) (hob : occB st.1 b = true) :
    CoreInv cap (assocSetDir src snk st a b).1
      (assocSetDir src snk st a b).2 := by
  unfold assocSetDir
  split
  case isFalse => exact hinv
  case isTrue hg =>
    simp only [Bool.not_eq_true] at hg
    have hbit : mget st.2 a b = false := hg.1
    have ham : a < st.2.length := hinv.mlen ▸ ha
    have hbr : b < (mrow st.2 a).length := by
      rw [hinv.rlen a ha]
      exact hb
    have hah : a < st.1.length := hinv.hlen ▸ ha
    have hbh : b < (hmodify st.1 a
        (fun z => { z with tx_count := z.tx_count + 1 })).length := by
      rw [length_hmodify]
      exact hinv.hlen ▸ hb
    refine ⟨?_, ?_, ?_, ?_, ?_⟩
    · simp only [length_hmodify]
      exact hinv.hlen
    · simp only [length_mset]
      exact hinv.mlen
    · intro i hi
      simp only [mrow_mset_length]
      exact hinv.rlen i hi
    · intro x
      constructor
      · by_cases hxa : x = a
        · subst hxa
          rw [rowSum_mset_self ham hbr hb, hbit]
          by_cases hxb : x = b
          · subst hxb
            rw [hget_hmodify_self hbh, hget_hmodify_self hah]
            simp [(hinv.counts x).1]
          · rw [hget_hmodify_ne (fun he => hxb he.symm),
              hget_hmodify_self hah]
            simp [(hinv.counts x).1]
        · rw [rowSum_mset_other hxa]
          by_cases hxb : x = b
          · subst hxb
            rw [hget_hmodify_self hbh,
              hget_hmodify_ne (fun he => hxa he.symm)]
            exact (hinv.counts x).1
          · rw [hget_hmodify_ne (fun he => hxb he.symm),
              hget_hmodify_ne (fun he => hxa he.symm)]
            exact (hinv.counts x).1
      · by_cases hxb : x = b
        · subst hxb
          rw [colSum_mset_self ham hbr ha, hbit]
          by_cases hxa : x = a
          · subst hxa
            rw [hget_hmodify_self hbh, hget_hmodify_self hah]
            simp [(hinv.counts x).2]
          · rw [hget_hmodify_self hbh,
              hget_hmodify_ne (fun he => hxa he.symm)]
            simp [(hinv.counts x).2]
        · rw [colSum_mset_other hxb]
          by_cases hxa : x = a
          · subst hxa
            rw [hget_hmodify_ne (fun he => hxb he.symm),
              hget_hmodify_self hah]
            simp [(hinv.counts x).2]
          · rw [hget_hmodify_ne (fun he => hxb he.symm),
              hget_hmodify_ne (fun he => hxa he.symm)]
            exact (hinv.counts x).2
    · intro x y hxy
      have hocc : occB (hmodify (hmodify st.1 a
          (fun z => { z with tx_count := z.tx_count + 1 })) b
          (fun z => { z with rx_count := z.rx_count + 1 })) x = occB st.1 x := by
        rw [occB_hmodify (f := fun z => { z with rx_count := z.rx_count + 1 })
          (fun _ => rfl),
          occB_hmodify (f := fun z => { z with tx_count := z.tx_count + 1 })
          (fun _ => rfl)]
      have hocc' : occB (hmodify (hmodify st.1 a
          (fun z => { z with tx_count := z.tx_count + 1 })) b
          (fun z => { z with rx_count := z.rx_count + 1 })) y = occB st.1 y := by
        rw [occB_hmodify (f := fun z => { z with rx_count := z.rx_count + 1 })
          (fun _ => rfl),
          occB_hmodify (f := fun z => { z with tx_count := z.tx_count + 1 })
          (fun _ => rfl)]
      rw [hocc, hocc']
      by_cases hxy' : x = a ∧ y = b
      · obtain ⟨rfl, rfl⟩ := hxy'
        exact ⟨hoa, hob⟩
      · rw [Classical.not_and_iff_or_not_not] at hxy'
        rw [mget_mset_ne hxy'] at hxy
        exact hinv.bits x y hxy

/-! ### Properties of `clearPairAt` -/

theorem clearPairAt_coreInv {cap : Nat} {i j : Nat}
    {st : List HeaderItem × List (List Bool)}
    (hinv : CoreInv cap st.1 st.2) :
    CoreInv cap (clearPairAt i st j).1 (clearPairAt i st j).2 :=
  clearStep_coreInv (clearStep_coreInv hinv)

theorem clearPairAt_occB (i : Nat)
    (st : List HeaderItem × List (List Bool)) (j x : Nat) :
    occB (clearPairAt i st j).1 x = occB st.1 x := by
  unfold clearPairAt
  rw [clearStep_occB, clearStep_occB]

theorem clearPairAt_clears_only {i : Nat}
    {st : List HeaderItem × List (List Bool)} {j x y : Nat}
    (hc : mget (clearPairAt i st j).2 x y = true) :
    mget st.2 x y = true :=
  clearStep_clears_only (clearStep_clears_only hc)

theorem clearPairAt_mget_fwd (i : Nat)
    (st : List HeaderItem × List (List Bool)) (j : Nat) :
    mget (clearPairAt i st j).2 i j = false := by
  unfold clearPairAt
  by_cases hij : j = i ∧ i = j
  · obtain ⟨rfl, _⟩ := hij
    exact clearStep_mget_self ..
  · rw [Classical.not_and_iff_or_not_not] at hij
    rw [clearStep_mget_ne hij.symm]
    · exact clearStep_mget_self ..

theorem clearPairAt_mget_bwd (i : Nat)
    (st : List HeaderItem × List (List Bool)) (j : Nat) :
    mget (clearPairAt i st j).2 j i = false :=
  clearStep_mget_self ..

theorem clearPairAt_mget_ne {i : Nat}
    {st : List HeaderItem × List (List Bool)} {j x y : Nat}
    (h1 : ¬ (x = i ∧ y = j)) (h2 : ¬ (x = j ∧ y = i)) :
    mget (clearPairAt i st j).2 x y = mget st.2 x y := by
  unfold clearPairAt
  rw [Classical.not_and_iff_or_not_not] at h1 h2
  rw [clearStep_mget_ne h2, clearStep_mget_ne h1]

theorem clearPairAt_mget_false {i : Nat}
    {st : List HeaderItem × List (List Bool)} {j x y : Nat}
    (hc : mget st.2 x y = false) :
    mget (clearPairAt i st j).2 x y = false := by
  by_contra hcon
  rw [Bool.not_eq_false] at hcon
  rw [clearPairAt_clears_only hcon] at hc
  exact absurd hc (by simp)

/-! ### Occupancy counting -/

theorem countOcc_succ (n : Nat) (h : List HeaderItem) :
    countOcc (n + 1) h = countOcc n h + (if occB h n = true then 1 else 0) := by
  unfold countOcc
  rw [Finset.range_succ, Finset.filter_insert]
  by_cases hn : occB h n = true
  · rw [if_pos hn, if_pos hn, Finset.card_insert_of_not_mem]
    intro hmem
    exact Finset.not_mem_range_self (Finset.mem_filter.mp hmem).1
  · rw [if_neg hn, if_neg hn, Nat.add_zero]

theorem countOcc_eq_countP (cap : Nat) (h : List HeaderItem) :
    countOcc cap h = (List.range cap).countP (occB h) := by
  induction cap with
  | zero => rfl
  | succ n ih =>
    rw [countOcc_succ, List.range_succ, List.countP_append,
      List.countP_singleton, ih]

theorem countOcc_pos {cap i : Nat} {h : List HeaderItem} (hi : i < cap)
    (hocc : occB h i = true) : 1 ≤ countOcc cap h := by
  unfold countOcc
  rw [Finset.one_le_card]
  exact ⟨i, Finset.mem_filter.mpr ⟨Finset.mem_range.mpr hi, hocc⟩⟩

theorem countP_range_lt {cap n : Nat} {h : List HeaderItem} (hn : n < cap)
    (hocc : occB h n = true) :
    (List.range n).countP (occB h) < countOcc cap h := by
  rw [countOcc_eq_countP]
  have h1 : (List.range (n + 1)).countP (occB h) =
      (List.range n).countP (occB h) + 1 := by
    rw [List.range_succ, List.countP_append, List.countP_singleton]
    simp [hocc]
  have h2 : (List.range (n + 1)).countP (occB h) ≤
      (List.range cap).countP (occB h) :=
    List.Sublist.countP_le _ (List.range_sublist.mpr hn)
  omega

/-! ### The subtract loop clears row and column `i` -/

theorem subtractFold_spec {cap cnt i : Nat} {h : List HeaderItem}
    {m : List (List Bool)} (hinv : CoreInv cap h m)
    (hcnt : cnt = countOcc cap h) :
    ∀ n, n ≤ cap →
      CoreInv cap (subtractFold cnt i h m n).1.1
          (subtractFold cnt i h m n).1.2 ∧
      (∀ x, occB (subtractFold cnt i h m n).1.1 x = occB h x) ∧
      (subtractFold cnt i h m n).2 = (List.range n).countP (occB h) ∧
      (∀ b, b < n → occB h b = true →
        mget (subtractFold cnt i h m n).1.2 i b = false ∧
        mget (subtractFold cnt i h m n).1.2 b i = false) ∧
      (∀ x y, mget (subtractFold cnt i h m n).1.2 x y = true →
        mget m x y = true) := by
  intro n
  induction n with
  | zero =>
    intro _
    refine ⟨hinv, fun x => rfl, rfl, ?_, fun x y hxy => hxy⟩
    intro b hb
    exact absurd hb (Nat.not_lt_zero b)
  | succ n ih =>
    intro hn1
    have hn : n < cap := Nat.lt_of_succ_le hn1
    obtain ⟨ihInv, ihOcc, ihK, ihClr, ihOnly⟩ := ih (Nat.le_of_lt hn)
    have hstep : subtractFold cnt i h m (n + 1) =
        subtractBody cnt i (subtractFold cnt i h m n) n := by
      unfold subtractFold
      rw [List.range_succ, List.foldl_append, List.foldl_cons, List.foldl_nil]
    by_cases hocc : occB h n = true
    · -- slot `n` is occupied: the body clears the pair `(i, n)`
      have hguard : (subtractFold cnt i h m n).2 < cnt := by
        rw [ihK, hcnt]
        exact countP_range_lt hn hocc
      have hterm : ¬ (hget (subtractFold cnt i h m n).1.1 n).termination
          = none := by
        intro he
        have := ihOcc n
        rw [occB, he] at this
        rw [← this] at hocc
        exact absurd hocc (by simp)
      have hbody : subtractBody cnt i (subtractFold cnt i h m n) n =
          (clearPairAt i (subtractFold cnt i h m n).1 n,
            (subtractFold cnt i h m n).2 + 1) := by
        unfold subtractBody
        rw [if_pos hguard, if_neg hterm]
      rw [hstep, hbody]
      refine ⟨clearPairAt_coreInv ihInv, ?_, ?_, ?_, ?_⟩
      · intro x
        rw [clearPairAt_occB]
        exact ihOcc x
      · simp only
        rw [ihK, List.range_succ, List.countP_append, List.countP_singleton]
        simp [hocc]
      · intro b hb hoccb
        by_cases hbn : b = n
        · subst hbn
          exact ⟨clearPairAt_mget_fwd .., clearPairAt_mget_bwd ..⟩
        · have hblt : b < n := Nat.lt_of_lt_of_le
            (Nat.lt_of_le_of_ne (Nat.lt_succ_iff.mp hb) hbn) (Nat.le_refl n)
          obtain ⟨h1, h2⟩ := ihClr b hblt hoccb
          exact ⟨clearPairAt_mget_false h1, clearPairAt_mget_false h2⟩
      · intro x y hxy
        exact ihOnly x y (clearPairAt_clears_only hxy)
    · -- slot `n` is empty: the body leaves the state unchanged
      have hocc' : occB (subtractFold cnt i h m n).1.1 n = false := by
        rw [ihOcc n]
        exact Bool.not_eq_true _ ▸ hocc
      have hterm : (hget (subtractFold cnt i h m n).1.1 n).termination
          = none := by
        rw [occB] at hocc'
        exact Option.not_isSome_iff_eq_none.mp (by rw [hocc']; simp)
      have hbody : subtractBody cnt i (subtractFold cnt i h m n) n =
          subtractFold cnt i h m n := by
        unfold subtractBody
        by_cases hg : (subtractFold cnt i h m n).2 < cnt
        · rw [if_pos hg, if_pos hterm]
        · rw [if_neg hg]
      rw [hstep, hbody]
      refine ⟨ihInv, ihOcc, ?_, ?_, ihOnly⟩
      · rw [ihK, List.range_succ, List.countP_append, List.countP_singleton]
        simp [hocc]
      · intro b hb hoccb
        by_cases hbn : b = n
        · subst hbn
          rw [hoccb] at hocc
          exact absurd rfl hocc
        · exact ihClr b (Nat.lt_of_le_of_ne (Nat.lt_succ_iff.mp hb) hbn) hoccb

/-! ### The context invariant is established and preserved -/

theorem hget_create (cap i : Nat) :
    hget (mpf_context_create cap).header i = ⟨none, 0, 0⟩ := by
  unfold mpf_context_create hget
  rw [List.getD_eq_getElem?_getD, List.getElem?_replicate]
  split <;> rfl

theorem mget_create (cap i j : Nat) :
    mget (mpf_context_create cap).matrix i j = false := by
  unfold mpf_context_create mget mrow
  simp only [List.getD_eq_getElem?_getD, List.getElem?_replicate]
  by_cases hi : i < cap
  · simp only [if_pos hi, Option.getD_some, List.getElem?_replicate]
    split <;> rfl
  · simp [if_neg hi]

theorem ctxInv_create (cap : Nat) : CtxInv (mpf_context_create cap) := by
  refine ⟨⟨?_, ?_, ?_, ?_, ?_⟩, ?_, ?_⟩
  · exact List.length_replicate ..
  · exact List.length_replicate ..
  · intro i hi
    have hi' : i < cap := hi
    unfold mpf_context_create mrow
    rw [List.getD_eq_getElem?_getD, List.getElem?_replicate, if_pos hi',
      Option.getD_some, List.length_replicate]
  · intro i
    rw [hget_create]
    constructor
    · exact (rowSum_eq_zero (fun j _ => mget_create cap i j)).symm
    · exact (colSum_eq_zero (fun x _ => mget_create cap x i)).symm
  · intro i j hij
    rw [mget_create] at hij
    exact absurd hij (by simp)
  · show 0 = countOcc cap (mpf_context_create cap).header
    rw [countOcc_eq_countP]
    symm
    rw [List.countP_eq_zero]
    intro a _
    rw [occB, hget_create]
    simp
  · simp [mpf_context_create]

theorem freshSystem_ctxInv (cap : Nat) (ts : List MpfTermination) :
    CtxInv (freshSystem cap ts).context :=
  ctxInv_create cap

theorem firstFreeSlot_some {h : List HeaderItem} {cap i : Nat}
    (hf : firstFreeSlot h cap = some i) :
    i < cap ∧ (hget h i).termination = none := by
  constructor
  · exact List.mem_range.mp (List.mem_of_find?_eq_some hf)
  · have := List.find?_some hf
    exact of_decide_eq_true this

theorem termination_add_ctxInv {s : MpfSystem} (hinv : CtxInv s.context)
    (tid : Nat) : CtxInv (mpf_context_termination_add s tid).2.context := by
  obtain ⟨hcore, hcount, hring⟩ := hinv
  cases hf : firstFreeSlot s.context.header s.context.capacity with
  | none =>
    simp only [mpf_context_termination_add, hf]
    exact ⟨hcore, hcount, hring⟩
  | some i =>
    obtain ⟨hi, hterm⟩ := firstFreeSlot_some hf
    have hocc : occB s.context.header i = false := by
      rw [occB, hterm]
      rfl
    have hih : i < s.context.header.length := hcore.hlen ▸ hi
    simp only [mpf_context_termination_add, hf]
    refine ⟨⟨?_, hcore.mlen, hcore.rlen, ?_, ?_⟩, ?_, ?_⟩
    · rw [List.length_set]
      exact hcore.hlen
    · intro x
      by_cases hxi : x = i
      · subst hxi
        rw [hget_set_self hih]
        constructor
        · refine (rowSum_eq_zero fun j hj => ?_).symm
          by_contra hc
          rw [Bool.not_eq_false] at hc
          have := (hcore.bits x j hc).1
          rw [this] at hocc
          exact absurd hocc (by simp)
        · refine (colSum_eq_zero fun j hj => ?_).symm
          by_contra hc
          rw [Bool.not_eq_false] at hc
          have := (hcore.bits j x hc).2
          rw [this] at hocc
          exact absurd hocc (by simp)
      · rw [hget_set_ne (fun he => hxi he.symm)]
        exact hcore.counts x
    · intro x y hxy
      have hold := hcore.bits x y hxy
      constructor
      · by_cases hxi : x = i
        · subst hxi
          rw [hold.1] at hocc
          exact absurd hocc (by simp)
        · rw [occB, hget_set_ne (fun he => hxi he.symm)]
          exact hold.1
      · by_cases hyi : y = i
        · subst hyi
          rw [hold.2] at hocc
          exact absurd hocc (by simp)
        · rw [occB, hget_set_ne (fun he => hyi he.symm)]
          exact hold.2
    · show s.context.count + 1 = _
      rw [countOcc_set_occupy hi hih hocc (by rfl), hcount]
    · show (if s.context.count = 0 then true else s.context.inRing) = true ↔
        0 < s.context.count + 1
      by_cases hc : s.context.count = 0
      · rw [if_pos hc]
        simp
      · rw [if_neg hc]
        constructor
        · intro _
          exact Nat.succ_pos _
        · intro _
          exact hring.mpr (Nat.pos_of_ne_zero hc)

theorem termination_subtract_ctxInv {s : MpfSystem} (hinv : CtxInv s.context)
    (tid : Nat) :
    CtxInv (mpf_context_termination_subtract s tid).2.context := by
  obtain ⟨hcore, hcount, hring⟩ := hinv
  by_cases h1 : s.context.capacity ≤ (tget s.terms tid).slot
  · simp only [mpf_context_termination_subtract, if_pos h1]
    exact ⟨hcore, hcount, hring⟩
  · by_cases h2 : (hget s.context.header (tget s.terms tid).slot).termination
        ≠ some tid
    · simp only [mpf_context_termination_subtract, if_neg h1, if_pos h2]
      exact ⟨hcore, hcount, hring⟩
    · simp only [mpf_context_termination_subtract, if_neg h1, if_neg h2]
      rw [Classical.not_not] at h2
      have hcap : (tget s.terms tid).slot < s.context.capacity :=
        Nat.lt_of_not_le h1
      set i := (tget s.terms tid).slot with hidef
      set F := subtractFold s.context.count i s.context.header
        s.context.matrix s.context.capacity with hFdef
      obtain ⟨FInv, FOcc, FK, FClr, FOnly⟩ :=
        subtractFold_spec hcore hcount s.context.capacity (Nat.le_refl _)
      have hoccI : occB s.context.header i = true := by
        rw [occB, h2]
        rfl
      have hihF : i < F.1.1.length := FInv.hlen ▸ hcap
      have hrowclr : ∀ b, mget F.1.2 i b = false := by
        intro b
        by_cases hb : b < s.context.capacity
        · by_cases hob : occB s.context.header b = true
          · exact (FClr b hb hob).1
          · by_contra hc
            rw [Bool.not_eq_false] at hc
            have := (FInv.bits i b hc).2
            rw [FOcc b] at this
            exact hob this
        · by_contra hc
          rw [Bool.not_eq_false] at hc
          have := mget_true_right_lt hc
          rw [FInv.rlen i hcap] at this
          exact hb this
      have hcolclr : ∀ b, mget F.1.2 b i = false := by
        intro b
        by_cases hb : b < s.context.capacity
        · by_cases hob : occB s.context.header b = true
          · exact (FClr b hb hob).2
          · by_contra hc
            rw [Bool.not_eq_false] at hc
            have := (FInv.bits b i hc).1
            rw [FOcc b] at this
            exact hob this
        · by_contra hc
          rw [Bool.not_eq_false] at hc
          have := mget_true_left_lt hc
          rw [FInv.mlen] at this
          exact hb this
      have hcnt1 : 1 ≤ s.context.count := by
        rw [hcount]
        exact countOcc_pos hcap hoccI
      refine ⟨⟨?_, FInv.mlen, FInv.rlen, ?_, ?_⟩, ?_, ?_⟩
      · rw [length_hmodify]
        exact FInv.hlen
      · intro x
        by_cases hxi : x = i
        · rw [hxi, hget_hmodify_self hihF]
          exact FInv.counts i
        · rw [hget_hmodify_ne (fun he => hxi he.symm)]
          exact FInv.counts x
      · intro x y hxy
        have hxne : x ≠ i := by
          intro he
          subst he
          rw [hrowclr y] at hxy
          exact absurd hxy (by simp)
        have hyne : y ≠ i := by
          intro he
          subst he
          rw [hcolclr x] at hxy
          exact absurd hxy (by simp)
        have := FInv.bits x y hxy
        constructor
        · rw [occB, hget_hmodify_ne (fun he => hxne he.symm)]
          exact this.1
        · rw [occB, hget_hmodify_ne (fun he => hyne he.symm)]
          exact this.2
      · show s.context.count - 1 = countOcc s.context.capacity
          (F.1.1.set i { hget F.1.1 i with termination := none })
        have hvac : countOcc s.context.capacity F.1.1 =
            countOcc s.context.capacity
              (F.1.1.set i ({ hget F.1.1 i with termination := none })) + 1 := by
          refine countOcc_set_vacate hcap hihF ?_ rfl
          rw [FOcc i]
          exact hoccI
        have hocF : countOcc s.context.capacity F.1.1 =
            countOcc s.context.capacity s.context.header :=
          countOcc_congr fun x _ => FOcc x
        omega
      · show (if s.context.count - 1 = 0 then false else s.context.inRing)
            = true ↔ 0 < s.context.count - 1
        by_cases hz : s.context.count - 1 = 0
        · rw [if_pos hz, hz]
          simp
        · rw [if_neg hz]
          constructor
          · intro _
            omega
          · intro _
            exact hring.mpr (by omega)

theorem association_add_ctxInv {s : MpfSystem} (hinv : CtxInv s.context)
    (tid1 tid2 : Nat) :
    CtxInv (mpf_context_association_add s tid1 tid2).2.context := by
  obtain ⟨hcore, hcount, hring⟩ := hinv
  by_cases h1 : s.context.capacity ≤ (tget s.terms tid1).slot ∨
      s.context.capacity ≤ (tget s.terms tid2).slot
  · simp only [mpf_context_association_add, if_pos h1]
    exact ⟨hcore, hcount, hring⟩
  · by_cases h2 : (hget s.context.header (tget s.terms tid1).slot).termination
        ≠ some tid1 ∨
        (hget s.context.header (tget s.terms tid2).slot).termination
        ≠ some tid2
    · simp only [mpf_context_association_add, if_neg h1, if_pos h2]
      exact ⟨hcore, hcount, hring⟩
    · simp only [mpf_context_association_add, if_neg h1, if_neg h2]
      push_neg at h1 h2
      have hi : (tget s.terms tid1).slot < s.context.capacity := h1.1
      have hj : (tget s.terms tid2).slot < s.context.capacity := h1.2
      have hoi : occB s.context.header (tget s.terms tid1).slot = true := by
        rw [occB, h2.1]
        rfl
      have hoj : occB s.context.header (tget s.terms tid2).slot = true := by
        rw [occB, h2.2]
        rfl
      set st1 := assocSetDir (tget s.terms tid1) (tget s.terms tid2)
        (s.context.header, s.context.matrix)
        (tget s.terms tid1).slot (tget s.terms tid2).slot with hst1
      set st2 := assocSetDir (tget s.terms tid2) (tget s.terms tid1) st1
        (tget s.terms tid2).slot (tget s.terms tid1).slot with hst2
      have hinv1 : CoreInv s.context.capacity st1.1 st1.2 := by
        rw [hst1]
        exact assocSetDir_coreInv hcore hi hj hoi hoj
      have hocc1 : ∀ x, occB st1.1 x = occB s.context.header x := by
        intro x
        rw [hst1]
        exact assocSetDir_occB ..
      have hoi1 : occB st1.1 (tget s.terms tid1).slot = true := by
        rw [hocc1]
        exact hoi
      have hoj1 : occB st1.1 (tget s.terms tid2).slot = true := by
        rw [hocc1]
        exact hoj
      have hinv2 : CoreInv s.context.capacity st2.1 st2.2 := by
        rw [hst2]
        exact assocSetDir_coreInv hinv1 hj hi hoj1 hoi1
      have hocc2 : ∀ x, occB st2.1 x = occB st1.1 x := by
        intro x
        rw [hst2]
        exact assocSetDir_occB ..
      refine ⟨hinv2, ?_, hring⟩
      rw [hcount]
      exact countOcc_congr fun x _ => ((hocc2 x).trans (hocc1 x)).symm

theorem association_remove_ctxInv {s : MpfSystem} (hinv : CtxInv s.context)
    (tid1 tid2 : Nat) :
    CtxInv (mpf_context_association_remove s tid1 tid2).2.context := by
  obtain ⟨hcore, hcount, hring⟩ := hinv
  by_cases h1 : s.context.capacity ≤ (tget s.terms tid1).slot ∨
      s.context.capacity ≤ (tget s.terms tid2).slot
  · simp only [mpf_context_association_remove, if_pos h1]
    exact ⟨hcore, hcount, hring⟩
  · by_cases h2 : (hget s.context.header (tget s.terms tid1).slot).termination
        ≠ some tid1 ∨
        (hget s.context.header (tget s.terms tid2).slot).termination
        ≠ some tid2
    · simp only [mpf_context_association_remove, if_neg h1, if_pos h2]
      exact ⟨hcore, hcount, hring⟩
    · simp only [mpf_context_association_remove, if_neg h1, if_neg h2]
      have hinv2 := clearStep_coreInv
        (a := (tget s.terms tid2).slot) (b := (tget s.terms tid1).slot)
        (clearStep_coreInv (a := (tget s.terms tid1).slot)
          (b := (tget s.terms tid2).slot) hcore)
      refine ⟨hinv2, ?_, hring⟩
      rw [hcount]
      refine countOcc_congr fun x _ => ?_
      rw [clearStep_occB, clearStep_occB]

theorem resetInnerBody_coreInv {cap i j : Nat}
    {st : List HeaderItem × List (List Bool)}
    (hinv : CoreInv cap st.1 st.2) :
    CoreInv cap (resetInnerBody i st j).1 (resetInnerBody i st j).2 := by
  unfold resetInnerBody
  split
  · exact hinv
  · exact clearPairAt_coreInv hinv

theorem resetInnerBody_occB (i : Nat)
    (st : List HeaderItem × List (List Bool)) (j x : Nat) :
    occB (resetInnerBody i st j).1 x = occB st.1 x := by
  unfold resetInnerBody
  split
  · rfl
  · exact clearPairAt_occB ..

theorem resetInner_fold_pres {cap i : Nat} :
    ∀ (js : List Nat) (st : List HeaderItem × List (List Bool)),
      CoreInv cap st.1 st.2 →
      CoreInv cap (js.foldl (resetInnerBody i) st).1
          (js.foldl (resetInnerBody i) st).2 ∧
      (∀ x, occB (js.foldl (resetInnerBody i) st).1 x = occB st.1 x) := by
  intro js
  induction js with
  | nil => exact fun st hinv => ⟨hinv, fun x => rfl⟩
  | cons j js ih =>
    intro st hinv
    rw [List.foldl_cons]
    obtain ⟨h1, h2⟩ := ih (resetInnerBody i st j) (resetInnerBody_coreInv hinv)
    refine ⟨h1, fun x => ?_⟩
    rw [h2 x, resetInnerBody_occB]

theorem resetOuterBody_pres {cap cnt : Nat}
    {st : (List HeaderItem × List (List Bool)) × Nat} {i : Nat}
    (hinv : CoreInv cap st.1.1 st.1.2) :
    CoreInv cap (resetOuterBody cap cnt st i).1.1
        (resetOuterBody cap cnt st i).1.2 ∧
    (∀ x, occB (resetOuterBody cap cnt st i).1.1 x = occB st.1.1 x) := by
  unfold resetOuterBody
  split
  · split
    · exact ⟨hinv, fun x => rfl⟩
    · split
      · exact ⟨hinv, fun x => rfl⟩
      · exact resetInner_fold_pres (List.range' i (cap - i)) st.1 hinv
  · exact ⟨hinv, fun x => rfl⟩

theorem resetFold_pres {cap cnt : Nat} {h : List HeaderItem}
    {m : List (List Bool)} (hinv : CoreInv cap h m) :
    ∀ n, CoreInv cap (resetFold cap cnt h m n).1.1
        (resetFold cap cnt h m n).1.2 ∧
      (∀ x, occB (resetFold cap cnt h m n).1.1 x = occB h x) := by
  intro n
  induction n with
  | zero => exact ⟨hinv, fun x => rfl⟩
  | succ n ih =>
    have hstep : resetFold cap cnt h m (n + 1) =
        resetOuterBody cap cnt (resetFold cap cnt h m n) n := by
      unfold resetFold
      rw [List.range_succ, List.foldl_append, List.foldl_cons, List.foldl_nil]
    rw [hstep]
    obtain ⟨h1, h2⟩ := ih
    obtain ⟨h3, h4⟩ := @resetOuterBody_pres _ cnt _ n h1
    refine ⟨h3, fun x => ?_⟩
    rw [h4 x, h2 x]

theorem associations_reset_ctxInv {s : MpfSystem} (hinv : CtxInv s.context) :
    CtxInv (mpf_context_associations_reset s).2.context := by
  obtain ⟨hcore, hcount, hring⟩ := hinv
  simp only [mpf_context_associations_reset, mpf_context_topology_destroy]
  obtain ⟨h1, h2⟩ := @resetFold_pres _ s.context.count _ _ hcore
    s.context.capacity
  refine ⟨h1, ?_, hring⟩
  have h3 : countOcc s.context.capacity
      (resetFold s.context.capacity s.context.count s.context.header
        s.context.matrix s.context.capacity).1.1 =
      countOcc s.context.capacity s.context.header :=
    countOcc_congr fun x _ => h2 x
  exact hcount.trans h3.symm

theorem applyOp_ctxInv {s : MpfSystem} (hinv : CtxInv s.context)
    (op : MpfOp) : CtxInv (applyOp s op).context := by
  cases op with
  | add tid => exact termination_add_ctxInv hinv tid
  | sub tid => exact termination_subtract_ctxInv hinv tid
  | assoc t1 t2 => exact association_add_ctxInv hinv t1 t2
  | deassoc t1 t2 => exact association_remove_ctxInv hinv t1 t2
  | reset => exact associations_reset_ctxInv hinv

theorem applyOps_ctxInv {s : MpfSystem} (hinv : CtxInv s.context)
    (ops : List MpfOp) : CtxInv (applyOps s ops).context := by
  induction ops generalizing s with
  | nil => exact hinv
  | cons op ops ih => exact ih (applyOp_ctxInv hinv op)

theorem ctxInv_claimInvariant {c : MpfContext} (h : CtxInv c) :
    ClaimInvariant c := by
  obtain ⟨hcore, hcount, hring⟩ := h
  exact ⟨fun i _ _ => hcore.counts i, hcount, hring⟩

/-- C1: starting from a freshly created media context, after every sequence
of `add_termination` / `subtract_termination` / `add_association` /
`remove_association` / `reset_associations` operations, every occupied
header slot `i` satisfies `tx_count = number of set bits in matrix row i`
and `rx_count = number of set bits in matrix column i`, `count` equals the
number of occupied header slots, and the context is linked into the factory
ring iff `count > 0`.  (Quantifying over all operation sequences gives the
invariant after every prefix, i.e. after every operation.) -/
theorem C1_context_sequence_invariants (cap : Nat) (ts : List MpfTermination)
    (ops : List MpfOp) :
    ClaimInvariant (applyOps (freshSystem cap ts) ops).context :=
  ctxInv_claimInvariant (applyOps_ctxInv (freshSystem_ctxInv cap ts) ops)

/-! ### Claim C3: failure semantics of the context operations -/

/-- A context with both slots occupied by terminations that have no audio
stream, so that every direction of an association is mode-incompatible. -/
def c3_system : MpfSystem :=
  ⟨⟨2, 2, [⟨some 0, 0, 0⟩, ⟨some 1, 0, 0⟩],
    [[false, false], [false, false]], [], true⟩,
    [⟨0, none⟩, ⟨1, none⟩]⟩

/-- C3 counterexample: the claim says a mode-incompatible `add_association`
"returns boolean false"; on this context (both stream modes incompatible in
both directions, both terminations stored at their recorded slots) it
returns `true` (the state is left unchanged, but the result is not
`false`). -/
theorem C3_counterexample :
    stream_mode_compatibility_check (tget c3_system.terms 0)
        (tget c3_system.terms 1) = false ∧
    stream_mode_compatibility_check (tget c3_system.terms 1)
        (tget c3_system.terms 0) = false ∧
    (tget c3_system.terms 0).slot = 0 ∧
    (hget c3_system.context.header 0).termination = some 0 ∧
    (tget c3_system.terms 1).slot = 1 ∧
    (hget c3_system.context.header 1).termination = some 1 ∧
    mpf_context_association_add c3_system 0 1 = (true, c3_system) := by
  decide

/-- C3 (amended): `add_termination` with all slots occupied, and
`subtract_termination` / `add_association` / `remove_association` with a
termination that is not stored at its recorded slot, return `false` and
leave the system unchanged; a mode-incompatible `add_association` (with
valid slots) leaves the system unchanged but returns `true` — each
incompatible direction is silently skipped. -/
theorem C3_failure_semantics (s : MpfSystem) (tid tid1 tid2 : Nat) :
    ((∀ i, i < s.context.capacity → occB s.context.header i = true) →
      mpf_context_termination_add s tid = (false, s)) ∧
    ((s.context.capacity ≤ (tget s.terms tid).slot ∨
      (hget s.context.header (tget s.terms tid).slot).termination
        ≠ some tid) →
      mpf_context_termination_subtract s tid = (false, s)) ∧
    ((s.context.capacity ≤ (tget s.terms tid1).slot ∨
      s.context.capacity ≤ (tget s.terms tid2).slot ∨
      (hget s.context.header (tget s.terms tid1).slot).termination
        ≠ some tid1 ∨
      (hget s.context.header (tget s.terms tid2).slot).termination
        ≠ some tid2) →
      mpf_context_association_add s tid1 tid2 = (false, s) ∧
      mpf_context_association_remove s tid1 tid2 = (false, s)) ∧
    ((stream_mode_compatibility_check (tget s.terms tid1)
        (tget s.terms tid2) = false ∧
      stream_mode_compatibility_check (tget s.terms tid2)
        (tget s.terms tid1) = false ∧
      ¬ s.context.capacity ≤ (tget s.terms tid1).slot ∧
      ¬ s.context.capacity ≤ (tget s.terms tid2).slot ∧
      (hget s.context.header (tget s.terms tid1).slot).termination
        = some tid1 ∧
      (hget s.context.header (tget s.terms tid2).slot).termination
        = some tid2) →
      mpf_context_association_add s tid1 tid2 = (true, s)) := by
  refine ⟨?_, ?_, ?_, ?_⟩
  · intro hall
    have hnone : firstFreeSlot s.context.header s.context.capacity = none := by
      rw [firstFreeSlot, List.find?_eq_none]
      intro x hx
      have := hall x (List.mem_range.mp hx)
      rw [occB] at this
      simp only [decide_eq_true_eq]
      intro hc
      rw [hc] at this
      exact absurd this (by simp)
    simp only [mpf_context_termination_add, hnone]
  · intro hbad
    cases hbad with
    | inl h1 => simp only [mpf_context_termination_subtract, if_pos h1]
    | inr h2 =>
      by_cases h1 : s.context.capacity ≤ (tget s.terms tid).slot
      · simp only [mpf_context_termination_subtract, if_pos h1]
      · simp only [mpf_context_termination_subtract, if_neg h1, if_pos h2]
  · intro hbad
    by_cases h1 : s.context.capacity ≤ (tget s.terms tid1).slot ∨
        s.context.capacity ≤ (tget s.terms tid2).slot
    · constructor
      · simp only [mpf_context_association_add, if_pos h1]
      · simp only [mpf_context_association_remove, if_pos h1]
    · have h2 : (hget s.context.header (tget s.terms tid1).slot).termination
          ≠ some tid1 ∨
          (hget s.context.header (tget s.terms tid2).slot).termination
          ≠ some tid2 := by
        rcases hbad with h | h | h | h
        · exact absurd (Or.inl h) h1
        · exact absurd (Or.inr h) h1
        · exact Or.inl h
        · exact Or.inr h
      constructor
      · simp only [mpf_context_association_add, if_neg h1, if_pos h2]
      · simp only [mpf_context_association_remove, if_neg h1, if_pos h2]
  · rintro ⟨hc12, hc21, hv1, hv2, ht1, ht2⟩
    have h1 : ¬ (s.context.capacity ≤ (tget s.terms tid1).slot ∨
        s.context.capacity ≤ (tget s.terms tid2).slot) := by
      rintro (h | h)
      · exact hv1 h
      · exact hv2 h
    have h2 : ¬ ((hget s.context.header (tget s.terms tid1).slot).termination
        ≠ some tid1 ∨
        (hget s.context.header (tget s.terms tid2).slot).termination
        ≠ some tid2) := by
      rintro (h | h)
      · exact h ht1
      · exact h ht2
    simp only [mpf_context_association_add, if_neg h1, if_neg h2]
    rw [assocSetDir_eq_of_guard (by rw [hc21]; simp),
      assocSetDir_eq_of_guard (by rw [hc12]; simp)]

/-- A full one-slot context used to witness the failure branches of C3. -/
def c3w_system : MpfSystem :=
  ⟨⟨1, 1, [⟨some 0, 0, 0⟩], [[false]], [], true⟩, [⟨0, none⟩]⟩

theorem C3_witness :
    mpf_context_termination_add c3w_system 1 = (false, c3w_system) ∧
    mpf_context_termination_subtract c3w_system 1 = (false, c3w_system) ∧
    (mpf_context_association_add c3w_system 1 0 = (false, c3w_system) ∧
      mpf_context_association_remove c3w_system 1 0 = (false, c3w_system)) ∧
    mpf_context_association_add c3w_system 0 0 = (true, c3w_system) :=
  ⟨(C3_failure_semantics c3w_system 1 1 0).1 (by decide),
    (C3_failure_semantics c3w_system 1 1 0).2.1 (by decide),
    (C3_failure_semantics c3w_system 1 1 0).2.2.1 (by decide),
    (C3_failure_semantics c3w_system 1 0 0).2.2.2 (by decide)⟩

/-! ### Claim C4: add/remove association round trip -/

theorem headerItem_ext {p q : HeaderItem} (h1 : p.termination = q.termination)
    (h2 : p.tx_count = q.tx_count) (h3 : p.rx_count = q.rx_count) : p = q := by
  cases p
  cases q
  simp only at h1 h2 h3
  rw [h1, h2, h3]

theorem hlist_ext {h1 h2 : List HeaderItem} (hlen : h1.length = h2.length)
    (hp : ∀ x, hget h1 x = hget h2 x) : h1 = h2 := by
  apply List.ext_getElem?
  intro n
  by_cases hn : n < h1.length
  · have hn2 : n < h2.length := hlen ▸ hn
    rw [List.getElem?_eq_getElem hn, List.getElem?_eq_getElem hn2]
    have hv := hp n
    rw [hget, hget, List.getD_eq_getElem?_getD, List.getD_eq_getElem?_getD,
      List.getElem?_eq_getElem hn, List.getElem?_eq_getElem hn2] at hv
    simpa using hv
  · rw [List.getElem?_eq_none (Nat.le_of_not_lt hn),
      List.getElem?_eq_none (by omega : h2.length ≤ n)]

theorem blist_ext {l1 l2 : List Bool} (hlen : l1.length = l2.length)
    (hp : ∀ y, l1.getD y false = l2.getD y false) : l1 = l2 := by
  apply List.ext_getElem?
  intro n
  by_cases hn : n < l1.length
  · have hn2 : n < l2.length := hlen ▸ hn
    rw [List.getElem?_eq_getElem hn, List.getElem?_eq_getElem hn2]
    have hv := hp n
    rw [List.getD_eq_getElem?_getD, List.getD_eq_getElem?_getD,
      List.getElem?_eq_getElem hn, List.getElem?_eq_getElem hn2] at hv
    simpa using hv
  · rw [List.getElem?_eq_none (Nat.le_of_not_lt hn),
      List.getElem?_eq_none (by omega : l2.length ≤ n)]

theorem matrix_ext {m1 m2 : List (List Bool)} (hlen : m1.length = m2.length)
    (hrl : ∀ x, (mrow m1 x).length = (mrow m2 x).length)
    (hp : ∀ x y, mget m1 x y = mget m2 x y) : m1 = m2 := by
  apply List.ext_getElem?
  intro n
  by_cases hn : n < m1.length
  · have hn2 : n < m2.length := hlen ▸ hn
    rw [List.getElem?_eq_getElem hn, List.getElem?_eq_getElem hn2]
    have hrow1 : mrow m1 n = m1[n] := by
      rw [mrow, List.getD_eq_getElem?_getD, List.getElem?_eq_getElem hn]
      rfl
    have hrow2 : mrow m2 n = m2[n] := by
      rw [mrow, List.getD_eq_getElem?_getD, List.getElem?_eq_getElem hn2]
      rfl
    have : m1[n] = m2[n] := by
      refine blist_ext ?_ ?_
      · rw [← hrow1, ← hrow2]
        exact hrl n
      · intro y
        have := hp n y
        rw [mget, mget, hrow1, hrow2] at this
        exact this
    rw [this]
  · rw [List.getElem?_eq_none (Nat.le_of_not_lt hn),
      List.getElem?_eq_none (by omega : m2.length ≤ n)]

theorem clearStep_hget_char {h : List HeaderItem} {m : List (List Bool)}
    {a b : Nat} (ha : a < h.length) (hb : b < h.length) (x : Nat) :
    hget (clearStep h m a b).1 x =
      (if mget m a b then
        { hget h x with
          tx_count := (hget h x).tx_count - (if x = a then 1 else 0),
          rx_count := (hget h x).rx_count - (if x = b then 1 else 0) }
      else hget h x) := by
  by_cases hbit : mget m a b = true
  · unfold clearStep
    simp only [hbit, if_true]
    have hb' : b < (hmodify h a
        (fun z => { z with tx_count := z.tx_count - 1 })).length := by
      rw [length_hmodify]
      exact hb
    by_cases hxb : x = b
    · subst hxb
      rw [hget_hmodify_self hb']
      by_cases hxa : x = a
      · subst hxa
        rw [hget_hmodify_self ha]
        simp
      · rw [hget_hmodify_ne (fun he => hxa he.symm)]
        simp [hxa]
    · rw [hget_hmodify_ne (fun he => hxb he.symm)]
      by_cases hxa : x = a
      · subst hxa
        rw [hget_hmodify_self ha]
        simp [hxb]
      · rw [hget_hmodify_ne (fun he => hxa he.symm)]
        simp [hxa, hxb]
  · simp only [Bool.not_eq_true] at hbit
    rw [clearStep_of_false hbit]
    simp [hbit]

theorem assocSetDir_hget_char {src snk : MpfTermination}
    {st : List HeaderItem × List (List Bool)} {a b : Nat}
    (ha : a < st.1.length) (hb : b < st.1.length) (x : Nat) :
    hget (assocSetDir src snk st a b).1 x =
      (if ¬ mget st.2 a b ∧ stream_mode_compatibility_check src snk then
        { hget st.1 x with
          tx_count := (hget st.1 x).tx_count + (if x = a then 1 else 0),
          rx_count := (hget st.1 x).rx_count + (if x = b then 1 else 0) }
      else hget st.1 x) := by
  unfold assocSetDir
  by_cases hg : ¬ mget st.2 a b ∧ stream_mode_compatibility_check src snk
  · rw [if_pos hg, if_pos hg]
    simp only
    have hb' : b < (hmodify st.1 a
        (fun z => { z with tx_count := z.tx_count + 1 })).length := by
      rw [length_hmodify]
      exact hb
    by_cases hxb : x = b
    · subst hxb
      rw [hget_hmodify_self hb']
      by_cases hxa : x = a
      · subst hxa
        rw [hget_hmodify_self ha]
        simp
      · rw [hget_hmodify_ne (fun he => hxa he.symm)]
        simp [hxa]
    · rw [hget_hmodify_ne (fun he => hxb he.symm)]
      by_cases hxa : x = a
      · subst hxa
        rw [hget_hmodify_self ha]
        simp [hxb]
      · rw [hget_hmodify_ne (fun he => hxa he.symm)]
        simp [hxa, hxb]
  · rw [if_neg hg, if_neg hg]

theorem assocSetDir_mget_self {src snk : MpfTermination}
    {st : List HeaderItem × List (List Bool)} {a b : Nat}
    (ha : a < st.2.length) (hb : b < (mrow st.2 a).length) :
    mget (assocSetDir src snk st a b).2 a b =
      (mget st.2 a b || stream_mode_compatibility_check src snk) := by
  unfold assocSetDir
  by_cases hg : ¬ mget st.2 a b ∧ stream_mode_compatibility_check src snk
  · rw [if_pos hg]
    simp only
    rw [mget_mset_self ha hb]
    rw [hg.2]
    simp
  · rw [if_neg hg]
    rw [Classical.not_and_iff_or_not_not, Classical.not_not,
      Bool.not_eq_true] at hg
    cases hg with
    | inl hbit => rw [hbit]; simp
    | inr hc => rw [hc]; simp

theorem assocSetDir_hget_term (src snk : MpfTermination)
    (st : List HeaderItem × List (List Bool)) (a b x : Nat) :
    (hget (assocSetDir src snk st a b).1 x).termination =
      (hget st.1 x).termination := by
  unfold assocSetDir
  split
  · simp only
    rw [hget_hmodify_counts
      (f := fun z => { z with rx_count := z.rx_count + 1 }) (fun _ => rfl),
      hget_hmodify_counts
      (f := fun z => { z with tx_count := z.tx_count + 1 }) (fun _ => rfl)]
  · rfl

theorem clearStep_hget_term (h : List HeaderItem) (m : List (List Bool))
    (a b x : Nat) :
    (hget (clearStep h m a b).1 x).termination = (hget h x).termination := by
  unfold clearStep
  split
  · simp only
    rw [hget_hmodify_counts
      (f := fun z => { z with rx_count := z.rx_count - 1 }) (fun _ => rfl),
      hget_hmodify_counts
      (f := fun z => { z with tx_count := z.tx_count - 1 }) (fun _ => rfl)]
  · rfl

theorem hget_term_lt {h : List HeaderItem} {i tid : Nat}
    (ht : (hget h i).termination = some tid) : i < h.length := by
  by_contra hc
  rw [hget_default (Nat.le_of_not_lt hc)] at ht
  exact absurd ht (by simp)

/-- C4 (amended): when both terminations are present at their recorded
slots and no association bit is set between their slots in either
direction, `add_association` followed by `remove_association` returns the
association matrix and the header (hence all tx/rx counters) to the
identical pre-state.  The hypotheses `hml`/`hrl` state the matrix
allocation shape, which `mpf_context_create` always establishes. -/
theorem C4_add_remove_roundtrip (s : MpfSystem) (tid1 tid2 : Nat)
    (hml : s.context.matrix.length = s.context.capacity)
    (hrl : ∀ x, x < s.context.capacity →
      (mrow s.context.matrix x).length = s.context.capacity)
    (hv1 : ¬ s.context.capacity ≤ (tget s.terms tid1).slot)
    (hv2 : ¬ s.context.capacity ≤ (tget s.terms tid2).slot)
    (ht1 : (hget s.context.header (tget s.terms tid1).slot).termination
      = some tid1)
    (ht2 : (hget s.context.header (tget s.terms tid2).slot).termination
      = some tid2)
    (hb1 : mget s.context.matrix (tget s.terms tid1).slot
      (tget s.terms tid2).slot = false)
    (hb2 : mget s.context.matrix (tget s.terms tid2).slot
      (tget s.terms tid1).slot = false) :
    (mpf_context_association_remove
        (mpf_context_association_add s tid1 tid2).2 tid1 tid2).2.context.matrix
      = s.context.matrix ∧
    (mpf_context_association_remove
        (mpf_context_association_add s tid1 tid2).2 tid1 tid2).2.context.header
      = s.context.header := by
  have h1 : ¬ (s.context.capacity ≤ (tget s.terms tid1).slot ∨
      s.context.capacity ≤ (tget s.terms tid2).slot) := by
    rintro (h | h)
    · exact hv1 h
    · exact hv2 h
  have h2 : ¬ ((hget s.context.header (tget s.terms tid1).slot).termination
      ≠ some tid1 ∨
      (hget s.context.header (tget s.terms tid2).slot).termination
      ≠ some tid2) := by
    rintro (h | h)
    · exact h ht1
    · exact h ht2
  have hterm1 : (hget (assocSetDir (tget s.terms tid2) (tget s.terms tid1)
      (assocSetDir (tget s.terms tid1) (tget s.terms tid2)
        (s.context.header, s.context.matrix)
        (tget s.terms tid1).slot (tget s.terms tid2).slot)
      (tget s.terms tid2).slot (tget s.terms tid1).slot).1
      (tget s.terms tid1).slot).termination = some tid1 := by
    rw [assocSetDir_hget_term, assocSetDir_hget_term]
    exact ht1
  have hterm2 : (hget (assocSetDir (tget s.terms tid2) (tget s.terms tid1)
      (assocSetDir (tget s.terms tid1) (tget s.terms tid2)
        (s.context.header, s.context.matrix)
        (tget s.terms tid1).slot (tget s.terms tid2).slot)
      (tget s.terms tid2).slot (tget s.terms tid1).slot).1
      (tget s.terms tid2).slot).termination = some tid2 := by
    rw [assocSetDir_hget_term, assocSetDir_hget_term]
    exact ht2
  have h2r : ¬ ((hget (assocSetDir (tget s.terms tid2) (tget s.terms tid1)
      (assocSetDir (tget s.terms tid1) (tget s.terms tid2)
        (s.context.header, s.context.matrix)
        (tget s.terms tid1).slot (tget s.terms tid2).slot)
      (tget s.terms tid2).slot (tget s.terms tid1).slot).1
      (tget s.terms tid1).slot).termination ≠ some tid1 ∨
      (hget (assocSetDir (tget s.terms tid2) (tget s.terms tid1)
      (assocSetDir (tget s.terms tid1) (tget s.terms tid2)
        (s.context.header, s.context.matrix)
        (tget s.terms tid1).slot (tget s.terms tid2).slot)
      (tget s.terms tid2).slot (tget s.terms tid1).slot).1
      (tget s.terms tid2).slot).termination ≠ some tid2) := by
    rintro (h | h)
    · exact h hterm1
    · exact h hterm2
  simp only [mpf_context_association_add, if_neg h1, if_neg h2]
  simp only [mpf_context_association_remove, if_neg h1, if_neg h2r]
  have hIc : (tget s.terms tid1).slot < s.context.capacity :=
    Nat.lt_of_not_le hv1
  have hJc : (tget s.terms tid2).slot < s.context.capacity :=
    Nat.lt_of_not_le hv2
  have hIh : (tget s.terms tid1).slot < s.context.header.length :=
    hget_term_lt ht1
  have hJh : (tget s.terms tid2).slot < s.context.header.length :=
    hget_term_lt ht2
  have hIm : (tget s.terms tid1).slot < s.context.matrix.length := by omega
  have hJm : (tget s.terms tid2).slot < s.context.matrix.length := by omega
  have hJrI : (tget s.terms tid2).slot <
      (mrow s.context.matrix (tget s.terms tid1).slot).length := by
    rw [hrl _ hIc]
    exact hJc
  have hIrJ : (tget s.terms tid1).slot <
      (mrow s.context.matrix (tget s.terms tid2).slot).length := by
    rw [hrl _ hJc]
    exact hIc
  by_cases hIJ : (tget s.terms tid1).slot = (tget s.terms tid2).slot
  · -- both terminations sit in the same slot
    rw [← hIJ] at hb1 hb2 hJh hJm hJrI hIrJ hJc
    rw [← hIJ]
    set ST1 := assocSetDir (tget s.terms tid1) (tget s.terms tid2)
      (s.context.header, s.context.matrix)
      (tget s.terms tid1).slot (tget s.terms tid1).slot with hST1
    set ST2 := assocSetDir (tget s.terms tid2) (tget s.terms tid1) ST1
      (tget s.terms tid1).slot (tget s.terms tid1).slot with hST2
    set CS1 := clearStep ST2.1 ST2.2 (tget s.terms tid1).slot
      (tget s.terms tid1).slot with hCS1
    have hlh1 : ST1.1.length = s.context.header.length := by
      rw [hST1]
      exact assocSetDir_header_length ..
    have hlm1 : ST1.2.length = s.context.matrix.length := by
      rw [hST1]
      exact assocSetDir_matrix_length ..
    have hlr1 : ∀ x, (mrow ST1.2 x).length =
        (mrow s.context.matrix x).length := by
      intro x
      rw [hST1]
      exact assocSetDir_row_length ..
    have hlh2 : ST2.1.length = ST1.1.length := by
      rw [hST2]
      exact assocSetDir_header_length ..
    have hlm2 : ST2.2.length = ST1.2.length := by
      rw [hST2]
      exact assocSetDir_matrix_length ..
    have hlr2 : ∀ x, (mrow ST2.2 x).length = (mrow ST1.2 x).length := by
      intro x
      rw [hST2]
      exact assocSetDir_row_length ..
    have hlhc : CS1.1.length = ST2.1.length := by
      rw [hCS1]
      exact clearStep_header_length ..
    have hlmc : CS1.2.length = ST2.2.length := by
      rw [hCS1]
      exact clearStep_matrix_length ..
    have hlrc : ∀ x, (mrow CS1.2 x).length = (mrow ST2.2 x).length := by
      intro x
      rw [hCS1]
      exact clearStep_row_length ..
    have hd1 : mget ST1.2 (tget s.terms tid1).slot (tget s.terms tid1).slot
        = stream_mode_compatibility_check (tget s.terms tid1)
            (tget s.terms tid2) := by
      rw [hST1, assocSetDir_mget_self hIm hJrI, hb1]
      simp
    have hq1 : mget ST2.2 (tget s.terms tid1).slot (tget s.terms tid1).slot
        = (stream_mode_compatibility_check (tget s.terms tid1)
            (tget s.terms tid2) ||
           stream_mode_compatibility_check (tget s.terms tid2)
            (tget s.terms tid1)) := by
      rw [hST2, assocSetDir_mget_self (by rw [hlm1]; exact hIm)
        (by rw [hlr1]; exact hJrI), hd1]
    have hq2 : mget CS1.2 (tget s.terms tid1).slot (tget s.terms tid1).slot
        = false := by
      rw [hCS1]
      exact clearStep_mget_self ..
    constructor
    · refine matrix_ext ?_ ?_ ?_
      · rw [clearStep_matrix_length, hlmc, hlm2, hlm1]
      · intro x
        rw [clearStep_row_length, hlrc x, hlr2 x, hlr1 x]
      · intro x y
        by_cases hxy : x = (tget s.terms tid1).slot ∧
            y = (tget s.terms tid1).slot
        · obtain ⟨rfl, rfl⟩ := hxy
          rw [hb1]
          exact clearStep_mget_self ..
        · rw [Classical.not_and_iff_or_not_not] at hxy
          rw [clearStep_mget_ne hxy, hCS1, clearStep_mget_ne hxy, hST2,
            assocSetDir_mget_ne hxy, hST1, assocSetDir_mget_ne hxy]
    · refine hlist_ext ?_ ?_
      · rw [clearStep_header_length, hlhc, hlh2, hlh1]
      · intro x
        by_cases hc1 : stream_mode_compatibility_check (tget s.terms tid1)
            (tget s.terms tid2) = true
        · have E1 : hget ST1.1 x = { hget s.context.header x with
              tx_count := (hget s.context.header x).tx_count +
                (if x = (tget s.terms tid1).slot then 1 else 0),
              rx_count := (hget s.context.header x).rx_count +
                (if x = (tget s.terms tid1).slot then 1 else 0) } := by
            rw [hST1, assocSetDir_hget_char hIh hJh x,
              if_pos ⟨by rw [hb1]; simp, hc1⟩]
          have E2 : hget ST2.1 x = hget ST1.1 x := by
            rw [hST2, assocSetDir_hget_char (by rw [hlh1]; exact hIh)
              (by rw [hlh1]; exact hJh) x,
              if_neg (by rw [hd1, hc1]; simp)]
          have E3 : hget CS1.1 x = { hget ST2.1 x with
              tx_count := (hget ST2.1 x).tx_count -
                (if x = (tget s.terms tid1).slot then 1 else 0),
              rx_count := (hget ST2.1 x).rx_count -
                (if x = (tget s.terms tid1).slot then 1 else 0) } := by
            rw [hCS1, clearStep_hget_char (by rw [hlh2, hlh1]; exact hIh)
              (by rw [hlh2, hlh1]; exact hJh) x,
              if_pos (by rw [hq1, hc1]; simp)]
          have E4 : hget (clearStep CS1.1 CS1.2 (tget s.terms tid1).slot
              (tget s.terms tid1).slot).1 x = hget CS1.1 x := by
            rw [clearStep_hget_char (by rw [hlhc, hlh2, hlh1]; exact hIh)
              (by rw [hlhc, hlh2, hlh1]; exact hJh) x,
              if_neg (by rw [hq2]; simp)]
          rw [E4, E3, E2, E1]
          refine headerItem_ext rfl ?_ ?_ <;> simp <;> omega
        · by_cases hc2 : stream_mode_compatibility_check (tget s.terms tid2)
              (tget s.terms tid1) = true
          · have E1 : hget ST1.1 x = hget s.context.header x := by
              rw [hST1, assocSetDir_hget_char hIh hJh x,
                if_neg (fun hcon => hc1 hcon.2)]
            have E2 : hget ST2.1 x = { hget ST1.1 x with
                tx_count := (hget ST1.1 x).tx_count +
                  (if x = (tget s.terms tid1).slot then 1 else 0),
                rx_count := (hget ST1.1 x).rx_count +
                  (if x = (tget s.terms tid1).slot then 1 else 0) } := by
              rw [hST2, assocSetDir_hget_char (by rw [hlh1]; exact hIh)
                (by rw [hlh1]; exact hJh) x,
                if_pos ⟨by rw [hd1]; simpa using hc1, hc2⟩]
            have E3 : hget CS1.1 x = { hget ST2.1 x with
                tx_count := (hget ST2.1 x).tx_count -
                  (if x = (tget s.terms tid1).slot then 1 else 0),
                rx_count := (hget ST2.1 x).rx_count -
                  (if x = (tget s.terms tid1).slot then 1 else 0) } := by
              rw [hCS1, clearStep_hget_char (by rw [hlh2, hlh1]; exact hIh)
                (by rw [hlh2, hlh1]; exact hJh) x,
                if_pos (by rw [hq1, hc2]; simp)]
            have E4 : hget (clearStep CS1.1 CS1.2 (tget s.terms tid1).slot
                (tget s.terms tid1).slot).1 x = hget CS1.1 x := by
              rw [clearStep_hget_char (by rw [hlhc, hlh2, hlh1]; exact hIh)
                (by rw [hlhc, hlh2, hlh1]; exact hJh) x,
                if_neg (by rw [hq2]; simp)]
            rw [E4, E3, E2, E1]
            refine headerItem_ext rfl ?_ ?_ <;> simp <;> omega
          · have E1 : hget ST1.1 x = hget s.context.header x := by
              rw [hST1, assocSetDir_hget_char hIh hJh x,
                if_neg (fun hcon => hc1 hcon.2)]
            have E2 : hget ST2.1 x = hget ST1.1 x := by
              rw [hST2, assocSetDir_hget_char (by rw [hlh1]; exact hIh)
                (by rw [hlh1]; exact hJh) x,
                if_neg (fun hcon => hc2 hcon.2)]
            have E3 : hget CS1.1 x = hget ST2.1 x := by
              rw [hCS1, clearStep_hget_char (by rw [hlh2, hlh1]; exact hIh)
                (by rw [hlh2, hlh1]; exact hJh) x,
                if_neg (by rw [hq1]; simp [hc1, hc2])]
            have E4 : hget (clearStep CS1.1 CS1.2 (tget s.terms tid1).slot
                (tget s.terms tid1).slot).1 x = hget CS1.1 x := by
              rw [clearStep_hget_char (by rw [hlhc, hlh2, hlh1]; exact hIh)
                (by rw [hlhc, hlh2, hlh1]; exact hJh) x,
                if_neg (by rw [hq2]; simp)]
            rw [E4, E3, E2, E1]
  · -- distinct slots
    set ST1 := assocSetDir (tget s.terms tid1) (tget s.terms tid2)
      (s.context.header, s.context.matrix)
      (tget s.terms tid1).slot (tget s.terms tid2).slot with hST1
    set ST2 := assocSetDir (tget s.terms tid2) (tget s.terms tid1) ST1
      (tget s.terms tid2).slot (tget s.terms tid1).slot with hST2
    set CS1 := clearStep ST2.1 ST2.2 (tget s.terms tid1).slot
      (tget s.terms tid2).slot with hCS1
    have hJI : (tget s.terms tid2).slot ≠ (tget s.terms tid1).slot :=
      fun he => hIJ he.symm
    have hlh1 : ST1.1.length = s.context.header.length := by
      rw [hST1]
      exact assocSetDir_header_length ..
    have hlm1 : ST1.2.length = s.context.matrix.length := by
      rw [hST1]
      exact assocSetDir_matrix_length ..
    have hlr1 : ∀ x, (mrow ST1.2 x).length =
        (mrow s.context.matrix x).length := by
      intro x
      rw [hST1]
      exact assocSetDir_row_length ..
    have hlh2 : ST2.1.length = ST1.1.length := by
      rw [hST2]
      exact assocSetDir_header_length ..
    have hlm2 : ST2.2.length = ST1.2.length := by
      rw [hST2]
      exact assocSetDir_matrix_length ..
    have hlr2 : ∀ x, (mrow ST2.2 x).length = (mrow ST1.2 x).length := by
      intro x
      rw [hST2]
      exact assocSetDir_row_length ..
    have hlhc : CS1.1.length = ST2.1.length := by
      rw [hCS1]
      exact clearStep_header_length ..
    have hlmc : CS1.2.length = ST2.2.length := by
      rw [hCS1]
      exact clearStep_matrix_length ..
    have hlrc : ∀ x, (mrow CS1.2 x).length = (mrow ST2.2 x).length := by
      intro x
      rw [hCS1]
      exact clearStep_row_length ..
    have hd1 : mget ST1.2 (tget s.terms tid1).slot (tget s.terms tid2).slot
        = stream_mode_compatibility_check (tget s.terms tid1)
            (tget s.terms tid2) := by
      rw [hST1, assocSetDir_mget_self hIm hJrI, hb1]
      simp
    have hd2 : mget ST1.2 (tget s.terms tid2).slot (tget s.terms tid1).slot
        = false := by
      rw [hST1, assocSetDir_mget_ne (Or.inl hJI)]
      exact hb2
    have hq1 : mget ST2.2 (tget s.terms tid1).slot (tget s.terms tid2).slot
        = stream_mode_compatibility_check (tget s.terms tid1)
            (tget s.terms tid2) := by
      rw [hST2, assocSetDir_mget_ne (Or.inl hIJ)]
      exact hd1
    have hbST2JI : mget ST2.2 (tget s.terms tid2).slot
        (tget s.terms tid1).slot
        = stream_mode_compatibility_check (tget s.terms tid2)
            (tget s.terms tid1) := by
      rw [hST2, assocSetDir_mget_self (by rw [hlm1]; exact hJm)
        (by rw [hlr1]; exact hIrJ), hd2]
      simp
    have hq2 : mget CS1.2 (tget s.terms tid2).slot (tget s.terms tid1).slot
        = stream_mode_compatibility_check (tget s.terms tid2)
            (tget s.terms tid1) := by
      rw [hCS1, clearStep_mget_ne (Or.inl hJI)]
      exact hbST2JI
    constructor
    · refine matrix_ext ?_ ?_ ?_
      · rw [clearStep_matrix_length, hlmc, hlm2, hlm1]
      · intro x
        rw [clearStep_row_length, hlrc x, hlr2 x, hlr1 x]
      · intro x y
        by_cases hxy1 : x = (tget s.terms tid1).slot ∧
            y = (tget s.terms tid2).slot
        · obtain ⟨rfl, rfl⟩ := hxy1
          rw [hb1, clearStep_mget_ne (Or.inl hIJ), hCS1]
          exact clearStep_mget_self ..
        · by_cases hxy2 : x = (tget s.terms tid2).slot ∧
              y = (tget s.terms tid1).slot
          · obtain ⟨rfl, rfl⟩ := hxy2
            rw [hb2]
            exact clearStep_mget_self ..
          · rw [Classical.not_and_iff_or_not_not] at hxy1 hxy2
            rw [clearStep_mget_ne hxy2, hCS1, clearStep_mget_ne hxy1, hST2,
              assocSetDir_mget_ne hxy2, hST1, assocSetDir_mget_ne hxy1]
    · refine hlist_ext ?_ ?_
      · rw [clearStep_header_length, hlhc, hlh2, hlh1]
      · intro x
        have E1 : hget ST1.1 x =
            (if stream_mode_compatibility_check (tget s.terms tid1)
                (tget s.terms tid2) = true then
              { hget s.context.header x with
                tx_count := (hget s.context.header x).tx_count +
                  (if x = (tget s.terms tid1).slot then 1 else 0),
                rx_count := (hget s.context.header x).rx_count +
                  (if x = (tget s.terms tid2).slot then 1 else 0) }
            else hget s.context.header x) := by
          rw [hST1, assocSetDir_hget_char hIh hJh x]
          by_cases hc1 : stream_mode_compatibility_check (tget s.terms tid1)
              (tget s.terms tid2) = true
          · rw [if_pos ⟨by rw [hb1]; simp, hc1⟩, if_pos hc1]
          · rw [if_neg (fun hcon => hc1 hcon.2), if_neg hc1]
        have E2 : hget ST2.1 x =
            (if stream_mode_compatibility_check (tget s.terms tid2)
                (tget s.terms tid1) = true then
              { hget ST1.1 x with
                tx_count := (hget ST1.1 x).tx_count +
                  (if x = (tget s.terms tid2).slot then 1 else 0),
                rx_count := (hget ST1.1 x).rx_count +
                  (if x = (tget s.terms tid1).slot then 1 else 0) }
            else hget ST1.1 x) := by
          rw [hST2, assocSetDir_hget_char (by rw [hlh1]; exact hJh)
            (by rw [hlh1]; exact hIh) x]
          by_cases hc2 : stream_mode_compatibility_check (tget s.terms tid2)
              (tget s.terms tid1) = true
          · rw [if_pos ⟨by rw [hd2]; simp, hc2⟩, if_pos hc2]
          · rw [if_neg (fun hcon => hc2 hcon.2), if_neg hc2]
        have E3 : hget CS1.1 x =
            (if stream_mode_compatibility_check (tget s.terms tid1)
                (tget s.terms tid2) = true then
              { hget ST2.1 x with
                tx_count := (hget ST2.1 x).tx_count -
                  (if x = (tget s.terms tid1).slot then 1 else 0),
                rx_count := (hget ST2.1 x).rx_count -
                  (if x = (tget s.terms tid2).slot then 1 else 0) }
            else hget ST2.1 x) := by
          rw [hCS1, clearStep_hget_char (by rw [hlh2, hlh1]; exact hIh)
            (by rw [hlh2, hlh1]; exact hJh) x]
          by_cases hc1 : stream_mode_compatibility_check (tget s.terms tid1)
              (tget s.terms tid2) = true
          · rw [if_pos (by rw [hq1]; exact hc1), if_pos hc1]
          · rw [if_neg (by rw [hq1]; exact hc1), if_neg hc1]
        have E4 : hget (clearStep CS1.1 CS1.2 (tget s.terms tid2).slot
            (tget s.terms tid1).slot).1 x =
            (if stream_mode_compatibility_check (tget s.terms tid2)
                (tget s.terms tid1) = true then
              { hget CS1.1 x with
                tx_count := (hget CS1.1 x).tx_count -
                  (if x = (tget s.terms tid2).slot then 1 else 0),
                rx_count := (hget CS1.1 x).rx_count -
                  (if x = (tget s.terms tid1).slot then 1 else 0) }
            else hget CS1.1 x) := by
          rw [clearStep_hget_char (by rw [hlhc, hlh2, hlh1]; exact hJh)
            (by rw [hlhc, hlh2, hlh1]; exact hIh) x]
          by_cases hc2 : stream_mode_compatibility_check (tget s.terms tid2)
              (tget s.terms tid1) = true
          · rw [if_pos (by rw [hq2]; exact hc2), if_pos hc2]
          · rw [if_neg (by rw [hq2]; exact hc2), if_neg hc2]
        rw [E4, E3, E2, E1]
        by_cases hc1 : stream_mode_compatibility_check (tget s.terms tid1)
            (tget s.terms tid2) = true <;>
          by_cases hc2 : stream_mode_compatibility_check (tget s.terms tid2)
            (tget s.terms tid1) = true <;>
          simp only [hc1, hc2, if_true, if_false] <;>
          refine headerItem_ext rfl ?_ ?_ <;> simp <;> omega

/-- A stream that may both send and receive. -/
def c4_stream : MpfAudioStream := ⟨true, true, none, none⟩

/-- A context in which the association bit 0 → 1 is already set. -/
def c4_system : MpfSystem :=
  ⟨⟨2, 2, [⟨some 0, 1, 0⟩, ⟨some 1, 0, 1⟩],
    [[false, true], [false, false]], [], true⟩,
    [⟨0, some c4_stream⟩, ⟨1, some c4_stream⟩]⟩

/-- C4 counterexample: both terminations are present at their recorded
slots, yet `add_association` followed by `remove_association` does not
return the matrix to the identical pre-state — the pre-existing bit 0 → 1
is lost, because the add skips an already-set direction while the remove
clears it unconditionally. -/
theorem C4_counterexample :
    (tget c4_system.terms 0).slot = 0 ∧
    (hget c4_system.context.header 0).termination = some 0 ∧
    (tget c4_system.terms 1).slot = 1 ∧
    (hget c4_system.context.header 1).termination = some 1 ∧
    (mpf_context_association_remove
        (mpf_context_association_add c4_system 0 1).2 0 1).2.context.matrix
      ≠ c4_system.context.matrix := by
  decide

/-- The same context with no association bits set. -/
def c4w_system : MpfSystem :=
  ⟨⟨2, 2, [⟨some 0, 0, 0⟩, ⟨some 1, 0, 0⟩],
    [[false, false], [false, false]], [], true⟩,
    [⟨0, some c4_stream⟩, ⟨1, some c4_stream⟩]⟩

theorem C4_witness :
    (mpf_context_association_remove
        (mpf_context_association_add c4w_system 0 1).2 0 1).2.context.matrix
      = c4w_system.context.matrix ∧
    (mpf_context_association_remove
        (mpf_context_association_add c4w_system 0 1).2 0 1).2.context.header
      = c4w_system.context.header :=
  C4_add_remove_roundtrip c4w_system 0 1 (by decide) (by decide) (by decide)
    (by decide) (by decide) (by decide) (by decide) (by decide)

/-! ### Claim C6: reset clears everything and is idempotent -/

theorem resetInnerBody_clears_only {i : Nat}
    {st : List HeaderItem × List (List Bool)} {j x y : Nat} :
    mget (resetInnerBody i st j).2 x y = true → mget st.2 x y = true := by
  unfold resetInnerBody
  split
  · exact id
  · exact clearPairAt_clears_only

theorem resetInner_fold_clears {i : Nat} :
    ∀ (js : List Nat) (st : List HeaderItem × List (List Bool)),
      (∀ x y, mget (js.foldl (resetInnerBody i) st).2 x y = true →
        mget st.2 x y = true) ∧
      (∀ j, j ∈ js → occB st.1 j = true →
        mget (js.foldl (resetInnerBody i) st).2 i j = false ∧
        mget (js.foldl (resetInnerBody i) st).2 j i = false) := by
  intro js
  induction js with
  | nil =>
    exact fun st => ⟨fun x y hxy => hxy,
      fun j hj => absurd hj (List.not_mem_nil j)⟩
  | cons j0 js ih =>
    intro st
    rw [List.foldl_cons]
    obtain ⟨ihOnly, ihClr⟩ := ih (resetInnerBody i st j0)
    refine ⟨?_, ?_⟩
    · intro x y hxy
      exact resetInnerBody_clears_only (ihOnly x y hxy)
    · intro j hj hocc
      rcases List.mem_cons.mp hj with rfl | hjs
      · have hbody : resetInnerBody i st j = clearPairAt i st j := by
          unfold resetInnerBody
          rw [if_neg ?_]
          intro he
          rw [occB, he] at hocc
          exact absurd hocc (by simp)
        constructor
        · by_contra hc
          rw [Bool.not_eq_false] at hc
          have := ihOnly i j hc
          rw [hbody] at this
          rw [clearPairAt_mget_fwd] at this
          exact absurd this (by simp)
        · by_contra hc
          rw [Bool.not_eq_false] at hc
          have := ihOnly j i hc
          rw [hbody] at this
          rw [clearPairAt_mget_bwd] at this
          exact absurd this (by simp)
      · have hocc' : occB (resetInnerBody i st j0).1 j = true := by
          rw [resetInnerBody_occB]
          exact hocc
        exact ihClr j hjs hocc'

theorem resetFold_spec {cap cnt : Nat} {h : List HeaderItem}
    {m : List (List Bool)} (hinv : CoreInv cap h m)
    (hcnt : cnt = countOcc cap h) :
    ∀ n, n ≤ cap →
      CoreInv cap (resetFold cap cnt h m n).1.1
          (resetFold cap cnt h m n).1.2 ∧
      (∀ x, occB (resetFold cap cnt h m n).1.1 x = occB h x) ∧
      (resetFold cap cnt h m n).2 = (List.range n).countP (occB h) ∧
      (∀ a b, a < n ∨ b < n →
        mget (resetFold cap cnt h m n).1.2 a b = false) := by
  intro n
  induction n with
  | zero =>
    intro _
    refine ⟨hinv, fun x => rfl, rfl, ?_⟩
    intro a b hab
    rcases hab with hab | hab <;> exact absurd hab (Nat.not_lt_zero _)
  | succ n ih =>
    intro hn1
    have hn : n < cap := Nat.lt_of_succ_le hn1
    obtain ⟨ihInv, ihOcc, ihK, ihClr⟩ := ih (Nat.le_of_lt hn)
    have hstep : resetFold cap cnt h m (n + 1) =
        resetOuterBody cap cnt (resetFold cap cnt h m n) n := by
      unfold resetFold
      rw [List.range_succ, List.foldl_append, List.foldl_cons, List.foldl_nil]
    by_cases hocc : occB h n = true
    · have hguard : (resetFold cap cnt h m n).2 < cnt := by
        rw [ihK, hcnt]
        exact countP_range_lt hn hocc
      have hterm : ¬ (hget (resetFold cap cnt h m n).1.1 n).termination
          = none := by
        intro he
        have := ihOcc n
        rw [occB, he] at this
        rw [← this] at hocc
        exact absurd hocc (by simp)
      by_cases hskip : (hget (resetFold cap cnt h m n).1.1 n).tx_count = 0 ∧
          (hget (resetFold cap cnt h m n).1.1 n).rx_count = 0
      · -- row n already has zero counters: skipped, and its bits are clear
        have hbody : resetOuterBody cap cnt (resetFold cap cnt h m n) n =
            ((resetFold cap cnt h m n).1,
              (resetFold cap cnt h m n).2 + 1) := by
          unfold resetOuterBody
          rw [if_pos hguard, if_neg hterm, if_pos hskip]
        have hrow0 : ∀ b, mget (resetFold cap cnt h m n).1.2 n b = false := by
          intro b
          by_cases hb : b < cap
          · refine rowSum_zero_bits ?_ b hb
            rw [← (ihInv.counts n).1]
            exact hskip.1
          · by_contra hc
            rw [Bool.not_eq_false] at hc
            have := mget_true_right_lt hc
            rw [ihInv.rlen n hn] at this
            exact hb this
        have hcol0 : ∀ a, mget (resetFold cap cnt h m n).1.2 a n = false := by
          intro a
          by_cases ha : a < cap
          · refine colSum_zero_bits ?_ a ha
            rw [← (ihInv.counts n).2]
            exact hskip.2
          · by_contra hc
            rw [Bool.not_eq_false] at hc
            have := mget_true_left_lt hc
            rw [ihInv.mlen] at this
            exact ha this
        rw [hstep, hbody]
        refine ⟨ihInv, ihOcc, ?_, ?_⟩
        · simp only
          rw [ihK, List.range_succ, List.countP_append, List.countP_singleton]
          simp [hocc]
        · intro a b hab
          by_cases hab' : a < n ∨ b < n
          · exact ihClr a b hab'
          · push_neg at hab'
            rcases hab with hab | hab
            · have : a = n := by omega
              subst this
              exact hrow0 b
            · have : b = n := by omega
              subst this
              exact hcol0 a
      · -- clear every pair (n, j), (j, n) for j ≥ n
        have hbody : resetOuterBody cap cnt (resetFold cap cnt h m n) n =
            ((List.range' n (cap - n)).foldl (resetInnerBody n)
              (resetFold cap cnt h m n).1,
              (resetFold cap cnt h m n).2 + 1) := by
          unfold resetOuterBody
          rw [if_pos hguard, if_neg hterm, if_neg hskip]
        obtain ⟨fOnly, fClr⟩ := resetInner_fold_clears
          (List.range' n (cap - n)) (resetFold cap cnt h m n).1
        obtain ⟨fInv, fOcc⟩ := resetInner_fold_pres
          (List.range' n (cap - n)) (resetFold cap cnt h m n).1 ihInv
        rw [hstep, hbody]
        refine ⟨fInv, ?_, ?_, ?_⟩
        · intro x
          simp only
          rw [fOcc x]
          exact ihOcc x
        · simp only
          rw [ihK, List.range_succ, List.countP_append, List.countP_singleton]
          simp [hocc]
        · intro a b hab
          by_cases hab' : a < n ∨ b < n
          · have hold := ihClr a b hab'
            by_contra hc
            rw [Bool.not_eq_false] at hc
            rw [fOnly a b hc] at hold
            exact absurd hold (by simp)
          · push_neg at hab'
            have hone : a = n ∨ b = n := by omega
            rcases hone with rfl | rfl
            · -- bit (n, b) with b ≥ n
              by_cases hb : b < cap
              · have hmem : b ∈ List.range' a (cap - a) := by
                  rw [List.mem_range'_1]
                  omega
                by_cases hoB : occB (resetFold cap cnt h m a).1.1 b = true
                · exact (fClr b hmem hoB).1
                · by_contra hc
                  rw [Bool.not_eq_false] at hc
                  have := (fInv.bits a b hc).2
                  rw [fOcc b, ihOcc b] at this
                  rw [← ihOcc b] at this
                  exact hoB this
              · by_contra hc
                rw [Bool.not_eq_false] at hc
                have := mget_true_right_lt hc
                rw [fInv.rlen a hn] at this
                exact hb this
            · -- bit (a, n) with a ≥ n
              by_cases ha : a < cap
              · have hmem : a ∈ List.range' b (cap - b) := by
                  rw [List.mem_range'_1]
                  omega
                by_cases hoA : occB (resetFold cap cnt h m b).1.1 a = true
                · exact (fClr a hmem hoA).2
                · by_contra hc
                  rw [Bool.not_eq_false] at hc
                  have := (fInv.bits a b hc).1
                  rw [fOcc a, ihOcc a] at this
                  rw [← ihOcc a] at this
                  exact hoA this
              · by_contra hc
                rw [Bool.not_eq_false] at hc
                have := mget_true_left_lt hc
                rw [fInv.mlen] at this
                exact ha this
    · -- slot n is empty: the body leaves the state unchanged
      have hocc' : occB (resetFold cap cnt h m n).1.1 n = false := by
        rw [ihOcc n]
        exact Bool.not_eq_true _ ▸ hocc
      have hterm : (hget (resetFold cap cnt h m n).1.1 n).termination
          = none := by
        rw [occB] at hocc'
        exact Option.not_isSome_iff_eq_none.mp (by rw [hocc']; simp)
      have hbody : resetOuterBody cap cnt (resetFold cap cnt h m n) n =
          resetFold cap cnt h m n := by
        unfold resetOuterBody
        by_cases hg : (resetFold cap cnt h m n).2 < cnt
        · rw [if_pos hg, if_pos hterm]
        · rw [if_neg hg]
      rw [hstep, hbody]
      refine ⟨ihInv, ihOcc, ?_, ?_⟩
      · rw [ihK, List.range_succ, List.countP_append, List.countP_singleton]
        simp [hocc]
      · intro a b hab
        by_cases hab' : a < n ∨ b < n
        · exact ihClr a b hab'
        · push_neg at hab'
          have hone : a = n ∨ b = n := by omega
          rcases hone with rfl | rfl
          · by_contra hc
            rw [Bool.not_eq_false] at hc
            have := (ihInv.bits a b hc).1
            rw [ihOcc a] at this
            exact hocc this
          · by_contra hc
            rw [Bool.not_eq_false] at hc
            have := (ihInv.bits a b hc).2
            rw [ihOcc b] at this
            exact hocc this

theorem resetFold_id {cap cnt : Nat} {h : List HeaderItem}
    {m : List (List Bool)}
    (hz : ∀ i, (hget h i).tx_count = 0 ∧ (hget h i).rx_count = 0) :
    ∀ n, (resetFold cap cnt h m n).1 = (h, m) := by
  intro n
  induction n with
  | zero => rfl
  | succ n ih =>
    have hstep : resetFold cap cnt h m (n + 1) =
        resetOuterBody cap cnt (resetFold cap cnt h m n) n := by
      unfold resetFold
      rw [List.range_succ, List.foldl_append, List.foldl_cons, List.foldl_nil]
    rw [hstep]
    unfold resetOuterBody
    split
    · split
      · exact ih
      · split
        · exact ih
        · rename_i hcounts
          rw [ih] at hcounts
          exact absurd (hz n) hcounts
    · exact ih
/-- A reset on a context whose counters are all zero and whose topology is
already empty changes nothing. -/
theorem reset_of_zero {s1 : MpfSystem}
    (hobj : s1.context.mpf_objects = [])
    (hz : ∀ i, (hget s1.context.header i).tx_count = 0 ∧
      (hget s1.context.header i).rx_count = 0) :
    mpf_context_associations_reset s1 = (true, s1) := by
  have hdestroy : mpf_context_topology_destroy s1.context = s1.context := by
    unfold mpf_context_topology_destroy
    rw [← hobj]
  simp only [mpf_context_associations_reset, hdestroy]
  rw [resetFold_id hz]

/-- C6 (amended): on every context satisfying the full invariant — the
spec's count invariants plus "every set bit joins two occupied slots", as
established for all reachable contexts — `reset_associations` first
destroys the compiled topology and then leaves every matrix bit cleared and
every `tx_count`/`rx_count` equal to zero; and it is idempotent on such
contexts. -/
theorem C6_reset_clears_counts_idempotent (s : MpfSystem)
    (hinv : CtxInv s.context) :
    (mpf_context_associations_reset s).2.context.mpf_objects = [] ∧
    (∀ a b, mget (mpf_context_associations_reset s).2.context.matrix a b
      = false) ∧
    (∀ i, (hget (mpf_context_associations_reset s).2.context.header i).tx_count
        = 0 ∧
      (hget (mpf_context_associations_reset s).2.context.header i).rx_count
        = 0) ∧
    mpf_context_associations_reset (mpf_context_associations_reset s).2 =
      mpf_context_associations_reset s := by
  obtain ⟨hcore, hcount, hring⟩ := hinv
  obtain ⟨fInv, fOcc, fK, fClr⟩ := resetFold_spec hcore hcount
    s.context.capacity (Nat.le_refl _)
  have hbits : ∀ a b,
      mget (resetFold s.context.capacity s.context.count s.context.header
        s.context.matrix s.context.capacity).1.2 a b = false := by
    intro a b
    by_cases hab : a < s.context.capacity ∨ b < s.context.capacity
    · exact fClr a b hab
    · push_neg at hab
      by_contra hc
      rw [Bool.not_eq_false] at hc
      have := mget_true_left_lt hc
      rw [fInv.mlen] at this
      omega
  have hcnt0 : ∀ i,
      (hget (resetFold s.context.capacity s.context.count s.context.header
        s.context.matrix s.context.capacity).1.1 i).tx_count = 0 ∧
      (hget (resetFold s.context.capacity s.context.count s.context.header
        s.context.matrix s.context.capacity).1.1 i).rx_count = 0 := by
    intro i
    constructor
    · rw [(fInv.counts i).1]
      exact rowSum_eq_zero fun j _ => hbits i j
    · rw [(fInv.counts i).2]
      exact colSum_eq_zero fun j _ => hbits j i
  refine ⟨rfl, hbits, hcnt0, ?_⟩
  show mpf_context_associations_reset (mpf_context_associations_reset s).2 =
    (true, (mpf_context_associations_reset s).2)
  exact reset_of_zero rfl hcnt0

/-- A context satisfying the spec's count invariants 1 – 3 verbatim, in
which a set bit joins an *empty* slot (0) to an occupied slot (1). -/
def c6_system : MpfSystem :=
  ⟨⟨2, 1, [⟨none, 1, 0⟩, ⟨some 1, 0, 1⟩],
    [[false, true], [false, false]], [], true⟩,
    [⟨0, none⟩, ⟨1, none⟩]⟩

/-- C6 counterexample: on a context satisfying the count invariants as
stated, `reset_associations` does *not* clear every matrix bit — the loop
skips rows whose slot is empty, so the bit 0 → 1 survives (and the 
counters stay non-zero). -/
theorem C6_counterexample :
    specCountInvariants c6_system.context ∧
    mget (mpf_context_associations_reset c6_system).2.context.matrix 0 1
      = true := by
  constructor
  · refine ⟨?_, ?_, ?_⟩
    · decide
    · decide
    · decide
  · decide

/-- A reachable two-termination context with one mutual association, used
to witness the amended C6. -/
def c6w_system : MpfSystem :=
  applyOps (freshSystem 2 [⟨SLOT_NONE, some c4_stream⟩,
    ⟨SLOT_NONE, some c4_stream⟩])
    [MpfOp.add 0, MpfOp.add 1, MpfOp.assoc 0 1]

theorem c6w_inv : CtxInv c6w_system.context :=
  applyOps_ctxInv (freshSystem_ctxInv 2 _) _

theorem C6_witness :
    (mpf_context_associations_reset c6w_system).2.context.mpf_objects = [] ∧
    mget (mpf_context_associations_reset c6w_system).2.context.matrix 0 1
      = false ∧
    (hget (mpf_context_associations_reset c6w_system).2.context.header
      0).tx_count = 0 ∧
    mpf_context_associations_reset
        (mpf_context_associations_reset c6w_system).2 =
      mpf_context_associations_reset c6w_system := by
  have h := C6_reset_clears_counts_idempotent c6w_system c6w_inv
  exact ⟨h.1, h.2.1 0 1, (h.2.2.1 0).1, h.2.2.2⟩

/-! ### Claim C5: connection construction during topology compilation -/

/-- C5: for a source/sink termination pair, connection construction yields
no object unless the source stream may receive, the sink stream may send,
and both the rx and the tx codec are present; with those conditions, it
yields a null bridge when the codec descriptors match, no object when they
differ and the sampling rates differ, and otherwise a regular bridge whose
source is wrapped in a decoder iff the rx codec has a decode entry and
whose sink is wrapped in an encoder iff the tx codec has an encode
entry. -/
theorem C5_connection_create_cases (src snk : MpfTermination) :
    (∀ o, mpf_context_connection_create (some src) (some snk) = some o →
      ∃ source sink rx tx,
        src.audio_stream = some source ∧ snk.audio_stream = some sink ∧
        source.mode_receive = true ∧ sink.mode_send = true ∧
        source.rx_codec = some rx ∧ sink.tx_codec = some tx) ∧
    (∀ source sink rx tx,
      src.audio_stream = some source → snk.audio_stream = some sink →
      source.mode_receive = true → sink.mode_send = true →
      source.rx_codec = some rx → sink.tx_codec = some tx →
      (mpf_codec_descriptors_match rx.descriptor tx.descriptor = true →
        mpf_context_connection_create (some src) (some snk) =
          some MpfConnObject.null_bridge) ∧
      (mpf_codec_descriptors_match rx.descriptor tx.descriptor = false →
        rx.descriptor.sampling_rate ≠ tx.descriptor.sampling_rate →
        mpf_context_connection_create (some src) (some snk) = none) ∧
      (mpf_codec_descriptors_match rx.descriptor tx.descriptor = false →
        rx.descriptor.sampling_rate = tx.descriptor.sampling_rate →
        mpf_context_connection_create (some src) (some snk) =
          some (MpfConnObject.bridge rx.has_decode tx.has_encode))) := by
  constructor
  · intro o ho
    unfold mpf_context_connection_create at ho
    dsimp only at ho
    rcases hsrc : src.audio_stream with _ | source
    · rw [hsrc] at ho
      simp at ho
    rcases hsnk : snk.audio_stream with _ | sink
    · rw [hsrc, hsnk] at ho
      simp at ho
    rw [hsrc, hsnk] at ho
    simp only at ho
    by_cases hmode : (source.mode_receive && sink.mode_send) = true
    · rw [if_pos hmode] at ho
      rcases hrx : source.rx_codec with _ | rx
      · rw [hrx] at ho
        simp at ho
      rcases htx : sink.tx_codec with _ | tx
      · rw [hrx, htx] at ho
        simp at ho
      rw [Bool.and_eq_true] at hmode
      exact ⟨source, sink, rx, tx, rfl, rfl, hmode.1, hmode.2, hrx, htx⟩
    · rw [if_neg hmode] at ho
      simp at ho
  · intro source sink rx tx hsrc hsnk hmr hms hrx htx
    have hmode : (source.mode_receive && sink.mode_send) = true := by
      rw [hmr, hms]
      rfl
    refine ⟨?_, ?_, ?_⟩
    · intro hmatch
      unfold mpf_context_connection_create
      dsimp only
      rw [hsrc, hsnk]
      simp only
      rw [if_pos hmode, hrx, htx]
      simp only
      rw [if_pos hmatch]
    · intro hmatch hrate
      unfold mpf_context_connection_create
      dsimp only
      rw [hsrc, hsnk]
      simp only
      rw [if_pos hmode, hrx, htx]
      simp only
      rw [if_neg (by rw [hmatch]; simp), if_pos hrate]
    · intro hmatch hrate
      unfold mpf_context_connection_create
      dsimp only
      rw [hsrc, hsnk]
      simp only
      rw [if_pos hmode, hrx, htx]
      simp only
      rw [if_neg (by rw [hmatch]; simp), if_neg (by rw [hrate]; simp)]

/-- Codecs and streams used to witness C5. -/
def c5_codec_a : MpfCodec := ⟨⟨0, 8000, 1⟩, true, true⟩

def c5_codec_b : MpfCodec := ⟨⟨8, 8000, 1⟩, true, false⟩

def c5_codec_c : MpfCodec := ⟨⟨96, 16000, 1⟩, false, true⟩

def c5_src : MpfTermination :=
  ⟨0, some ⟨false, true, some c5_codec_a, none⟩⟩

def c5_snk_match : MpfTermination :=
  ⟨1, some ⟨true, false, none, some c5_codec_a⟩⟩

def c5_snk_rate : MpfTermination :=
  ⟨1, some ⟨true, false, none, some c5_codec_c⟩⟩

def c5_snk_bridge : MpfTermination :=
  ⟨1, some ⟨true, false, none, some c5_codec_b⟩⟩

def c5_deaf : MpfTermination := ⟨0, some ⟨false, false, none, none⟩⟩

theorem C5_witness :
    mpf_context_connection_create (some c5_src) (some c5_snk_match) =
      some MpfConnObject.null_bridge ∧
    mpf_context_connection_create (some c5_src) (some c5_snk_rate) = none ∧
    mpf_context_connection_create (some c5_src) (some c5_snk_bridge) =
      some (MpfConnObject.bridge true false) ∧
    (mpf_context_connection_create (some c5_deaf) (some c5_snk_match) ≠
      some MpfConnObject.null_bridge) := by
  refine ⟨?_, ?_, ?_, ?_⟩
  · exact ((C5_connection_create_cases c5_src c5_snk_match).2 _ _
      c5_codec_a c5_codec_a rfl rfl rfl rfl rfl rfl).1 (by decide)
  · exact (((C5_connection_create_cases c5_src c5_snk_rate).2 _ _
      c5_codec_a c5_codec_c rfl rfl rfl rfl rfl rfl).2.1 (by decide)
      (by decide))
  · exact (((C5_connection_create_cases c5_src c5_snk_bridge).2 _ _
      c5_codec_a c5_codec_b rfl rfl rfl rfl rfl rfl).2.2 (by decide)
      (by decide))
  · intro hc
    obtain ⟨source, sink, rx, tx, h1, h2, h3, _⟩ :=
      (C5_connection_create_cases c5_deaf c5_snk_match).1 _ hc
    rw [show c5_deaf.audio_stream = some ⟨false, false, none, none⟩ from rfl]
      at h1
    cases h1
    exact absurd h3 (by decide)

/-! ### Server session orchestrator model (`mrcp_server_session.c`)

The session structures are modelled with the fields the verified functions
read and write.  External collaborators (resource factory, engine table,
control channels, the media engine's task queue) enter as parameters or as
recorded effects: a command successfully added to the media-task batch is
recorded in `batch`, and the asynchronous work triggered by a dispatch or a
completed sub-request is reported as a `SubreqAction` / `SigEvent` rather
than executed recursively. -/

inductive MrcpVersion where
  | v1 : MrcpVersion
  | v2 : MrcpVersion
deriving DecidableEq

/-- `mrcp_session_status_e`: the observable answer status codes. -/
inductive SessionStatus where
  | ok : SessionStatus
  | no_such_resource : SessionStatus
  | unacceptable_resource : SessionStatus
  | unavailable_resource : SessionStatus
deriving DecidableEq

/-- `mrcp_server_session_state_e`. -/
inductive MrcpSessionState where
  | none : MrcpSessionState
  | answering : MrcpSessionState
  | deactivating : MrcpSessionState
  | terminating : MrcpSessionState
deriving DecidableEq

inductive SigMsgType where
  | offer : SigMsgType
  | control : SigMsgType
  | terminate : SigMsgType
deriving DecidableEq

/-- A signaling message (`mrcp_signaling_message_t`), identified by an id
for trace bookkeeping. -/
structure SigMsg where
  id : Nat
  msg_type : SigMsgType
deriving DecidableEq

/-- Observable signaling events: a message being dispatched into the
session, and the answer (or method response / terminate response) for a
message being sent to the client. -/
inductive SigEvent where
  | dispatched (m : SigMsg) : SigEvent
  | answer_sent (m : SigMsg) : SigEvent
deriving DecidableEq

/-- The continuation `mrcp_server_session_subrequest_remove` invokes when
the count drains to zero; reported instead of executed. -/
inductive SubreqAction where
  | none : SubreqAction
  | answer_send : SubreqAction
  | terminate_process : SubreqAction
  | terminate_send : SubreqAction
deriving DecidableEq

/-- The part of `mpf_rtp_media_descriptor_t` the orchestrator reads and
writes: grouping tag, addresses, and the direction mask. -/
structure RtpMediaDesc where
  mid : Nat
  ip : Option String
  ext_ip : Option String
  mode_send : Bool
  mode_receive : Bool
deriving DecidableEq

/-- An engine-channel-owned termination: its identity and its stream's
direction mask. -/
structure EngineTermM where
  tid : Nat
  mode_send : Bool
  mode_receive : Bool
deriving DecidableEq

/-- An engine channel (`mrcp_engine_channel_t`): its optional termination
and the outcome of `mrcp_engine_channel_virtual_open`. -/
structure EngineChannelM where
  termination : Option EngineTermM
  open_ok : Bool
deriving DecidableEq

/-- `mrcp_channel_t`, with the control channel, state machine and resource
handles reduced to presence flags. -/
structure MrcpChannel where
  resource_name : Option String
  resource : Bool
  control_channel : Bool
  state_machine : Bool
  engine_channel : Option EngineChannelM
  id : Nat
  cmid : Nat
  waiting_for_channel : Bool
  waiting_for_termination : Bool
deriving DecidableEq

def defaultChannel : MrcpChannel :=
  ⟨none, false, false, false, none, 0, 0, false, false⟩

/-- `mrcp_termination_slot_t`: the RTP termination (by id), SDP position,
grouping tag, associated channel list (`NULL` until built), and waiting
flag. -/
structure MrcpTerminationSlot where
  termination : Option Nat
  id : Nat
  mid : Nat
  channels : Option (List MrcpChannel)
  waiting : Bool
deriving DecidableEq

def defaultSlot : MrcpTerminationSlot := ⟨none, 0, 0, none, false⟩

/-- The modelled part of `mrcp_session_descriptor_t`. Control and video
media entries carry no payload the verified functions inspect. -/
structure SessionDescriptor where
  ip : Option String
  ext_ip : Option String
  resource_name : Option String
  resource_state : Bool
  status : SessionStatus
  control_media : List (Option Unit)
  audio_media : List (Option RtpMediaDesc)
  video_media : List (Option Unit)
deriving DecidableEq

/-- A command recorded in the media-engine task batch
(`session->mpf_task_msg`); payload descriptors are not modelled since no
claim inspects them.  `add_termination rtp` distinguishes RTP-termination
adds (audio-media processing) from engine-termination adds. -/
inductive MpfCommand where
  | reset_associations : MpfCommand
  | apply_topology : MpfCommand
  | add_termination (rtp : Bool) : MpfCommand
  | modify_termination : MpfCommand
  | subtract_termination : MpfCommand
  | add_association : MpfCommand
deriving DecidableEq

/-- The server-side session (`mrcp_server_session_t`), with the fields the
verified functions touch. -/
structure SessionM where
  channels : List MrcpChannel
  terminations : List MrcpTerminationSlot
  active_request : Option SigMsg
  request_queue : List SigMsg
  offer : Option SessionDescriptor
  answer : Option SessionDescriptor
  batch : List MpfCommand
  subrequest_count : Int
  state : MrcpSessionState
  context_created : Bool
  next_term_id : Nat
deriving DecidableEq

/-- `mrcp_server_session_create`. -/
def mrcp_server_session_create : SessionM :=
  ⟨[], [], none, [], none, none, [], 0, MrcpSessionState.none, false, 0⟩

/-- External lookups the orchestrator consults: resource-factory name
resolution and engine-channel creation (`apr_hash_get` on the engine table
plus `mrcp_engine_channel_virtual_create`). -/
structure ServerProfileM where
  resource_find : String → Bool
  engine_create : String → Option EngineChannelM

def setAnswerStatus (s : SessionM) (st : SessionStatus) : SessionM :=
  { s with answer := s.answer.map (fun a => { a with status := st }) }

/-- `mrcp_server_session_state_set`: entering a state forcibly zeroes a
non-zero `subrequest_count` (the source treats that as an error case). -/
def mrcp_server_session_state_set (s : SessionM) (st : MrcpSessionState) :
    SessionM :=
  let s := if s.subrequest_count ≠ 0 then { s with subrequest_count := 0 }
    else s
  { s with state := st }

def mrcp_server_session_subrequest_add (s : SessionM) : SessionM :=
  { s with subrequest_count := s.subrequest_count + 1 }

/-- `mrcp_server_session_subrequest_remove`: a completion with the count
already at zero is silently ignored; on draining to zero the state-specific
continuation is reported. -/
def mrcp_server_session_subrequest_remove (s : SessionM) :
    SessionM × SubreqAction :=
  if s.subrequest_count = 0 then (s, SubreqAction.none)
  else
    let s := { s with subrequest_count := s.subrequest_count - 1 }
    if s.subrequest_count = 0 then
      match s.state with
      | .answering => (s, SubreqAction.answer_send)
      | .deactivating => (s, SubreqAction.terminate_process)
      | .terminating => (s, SubreqAction.terminate_send)
      | .none => (s, SubreqAction.none)
    else (s, SubreqAction.none)

/-- `mrcp_server_signaling_message_process`: queue the message when another
is active, otherwise make it active and dispatch it (the dispatch is the
observable event). -/
def mrcp_server_signaling_message_process (s : SessionM) (m : SigMsg) :
    SessionM × List SigEvent :=
  if s.active_request.isSome then
    ({ s with request_queue := s.request_queue ++ [m] }, [])
  else
    ({ s with active_request := some m }, [SigEvent.dispatched m])

/-- `mrcp_server_session_answer_send` (and the identical completion tail of
the response branch of `state_machine_on_message_dispatch`): send the
answer for the active message, clear the stored offer/answer, pop the queue
head and dispatch it. -/
def mrcp_server_session_answer_send (s : SessionM) :
    SessionM × List SigEvent :=
  let evs := match s.active_request with
    | some m => [SigEvent.answer_sent m]
    | Option.none => []
  let next := s.request_queue.head?
  let s := { s with
    offer := none, answer := none,
    active_request := next, request_queue := s.request_queue.tail }
  (s, evs ++ (match next with
    | some m2 => [SigEvent.dispatched m2]
    | Option.none => []))

/-- External stimuli for the signaling-serialization runs: a message
arrives, or the active message completes (its answer or response is
ready). -/
inductive SigExtEvent where
  | arrive (m : SigMsg) : SigExtEvent
  | complete : SigExtEvent

def sigStep (s : SessionM) : SigExtEvent → SessionM × List SigEvent
  | .arrive m => mrcp_server_signaling_message_process s m
  | .complete => mrcp_server_session_answer_send s

def sigRun : SessionM → List SigExtEvent → SessionM × List SigEvent
  | s, [] => (s, [])
  | s, e :: es =>
    let r1 := sigStep s e
    let r2 := sigRun r1.1 es
    (r2.1, r1.2 ++ r2.2)

/-- `a` occurs before `b` in the trace: every initial segment containing
`b` already contains `a`. -/
def eventPrecedes (a b : SigEvent) (tr : List SigEvent) : Prop :=
  ∀ p t, p ++ t = tr → b ∈ p → a ∈ p

/-- `mrcp_server_channel_create`: resolve the resource name; an unknown or
invalid name records `NO_SUCH_RESOURCE` in the answer, a failed engine
channel creation records `UNACCEPTABLE_RESOURCE`.  The control channel
(v2) and the state machine are modelled as created successfully. -/
def mrcp_server_channel_create (profile : ServerProfileM)
    (version : MrcpVersion) (s : SessionM) (resource_name : Option String)
    (id cmid : Nat) : MrcpChannel × SessionM :=
  let channel : MrcpChannel :=
    { defaultChannel with id := id, cmid := cmid }
  match resource_name with
  | some name =>
    let channel := { channel with resource_name := some name }
    if profile.resource_find name then
      let channel := { channel with
        resource := true,
        control_channel := version = MrcpVersion.v2, state_machine := true }
      match profile.engine_create name with
      | some ec => ({ channel with engine_channel := some ec }, s)
      | Option.none =>
        (channel, setAnswerStatus s SessionStatus.unacceptable_resource)
    else (channel, setAnswerStatus s SessionStatus.no_such_resource)
  | Option.none => (channel, setAnswerStatus s SessionStatus.no_such_resource)

/-- `mrcp_server_on_engine_channel_open`: a failed open records
`UNAVAILABLE_RESOURCE` in the answer; then a sub-request completes. -/
def mrcp_server_on_engine_channel_open (s : SessionM) (status : Bool) :
    SessionM × SubreqAction :=
  mrcp_server_session_subrequest_remove
    (if status = false then
      setAnswerStatus s SessionStatus.unavailable_resource
    else s)

/-- `mrcp_session_answer_create`: copy `resource_name`, `resource_state`
and `status` from the offer; allocate per-media answer slots filled with
null. -/
def mrcp_session_answer_create (offer : SessionDescriptor) :
    SessionDescriptor :=
  { ip := none, ext_ip := none,
    resource_name := offer.resource_name,
    resource_state := offer.resource_state,
    status := offer.status,
    control_media := List.replicate offer.control_media.length none,
    audio_media := List.replicate offer.audio_media.length none,
    video_media := List.replicate offer.video_media.length none }

/-- `mrcp_server_rtp_termination_find`, returning the index of the slot
whose termination pointer matches (pointer identity modelled as id
equality). -/
def mrcp_server_rtp_termination_find (s : SessionM) (t : Nat) :
    Option Nat :=
  s.terminations.findIdx? (fun slot => slot.termination == some t)

/-- `mrcp_server_channel_termination_find`, returning the index of the
channel whose engine channel owns the matching termination. -/
def mrcp_server_channel_termination_find (s : SessionM) (t : Nat) :
    Option Nat :=
  s.channels.findIdx? (fun ch =>
    match ch.engine_channel with
    | some ec =>
      match ec.termination with
      | some et => et.tid == t
      | Option.none => false
    | Option.none => false)

/-- `mrcp_server_channel_find`.  `apt_string_compare` is modelled from the
spec: two names match when both are present and equal; an empty (`none`)
offer name matches no channel. -/
def mrcp_server_channel_find (s : SessionM) (name : Option String) :
    Option MrcpChannel :=
  match name with
  | some n => s.channels.find? (fun ch => ch.resource_name == some n)
  | Option.none => none

/-- The part of an `mpf_message_t` response the termination handlers read:
the termination it answers for, and the local audio descriptor
(`mpf_message->descriptor->audio.local`) when one is supplied. -/
structure MpfRespMsg where
  termination : Nat
  audio_local : Option RtpMediaDesc
deriving DecidableEq

/-- `mrcp_server_on_termination_modify`: result flag, updated session, and
the continuation reported by `subrequest_remove` (if it ran). -/
def mrcp_server_on_termination_modify (s : SessionM) (msg : MpfRespMsg) :
    Bool × SessionM × SubreqAction :=
  match mrcp_server_rtp_termination_find s msg.termination with
  | some si =>
    let slot := s.terminations.getD si defaultSlot
    if slot.waiting = false then (false, s, SubreqAction.none)
    else
      let s := { s with
        terminations := s.terminations.set si { slot with waiting := false } }
      let s := match msg.audio_local with
        | some local_desc =>
          { s with answer := s.answer.map (fun a =>
              { a with
                ip := local_desc.ip, ext_ip := local_desc.ext_ip,
                audio_media := a.audio_media.set slot.id (some local_desc) }) }
        | Option.none => s
      let r := mrcp_server_session_subrequest_remove s
      (true, r.1, r.2)
  | Option.none =>
    match mrcp_server_channel_termination_find s msg.termination with
    | some ci =>
      let ch := s.channels.getD ci defaultChannel
      if ch.waiting_for_termination = true then
        let s := { s with
          channels :=
            s.channels.set ci { ch with waiting_for_termination := false } }
        let r := mrcp_server_session_subrequest_remove s
        (true, r.1, r.2)
      else (true, s, SubreqAction.none)
    | Option.none => (true, s, SubreqAction.none)

/-- `mrcp_server_on_termination_subtract`: same flag handling as the
modify handler, without the descriptor copy. -/
def mrcp_server_on_termination_subtract (s : SessionM) (msg : MpfRespMsg) :
    Bool × SessionM × SubreqAction :=
  match mrcp_server_rtp_termination_find s msg.termination with
  | some si =>
    let slot := s.terminations.getD si defaultSlot
    if slot.waiting = false then (false, s, SubreqAction.none)
    else
      let s := { s with
        terminations := s.terminations.set si { slot with waiting := false } }
      let r := mrcp_server_session_subrequest_remove s
      (true, r.1, r.2)
  | Option.none =>
    match mrcp_server_channel_termination_find s msg.termination with
    | some ci =>
      let ch := s.channels.getD ci defaultChannel
      if ch.waiting_for_termination = true then
        let s := { s with
          channels :=
            s.channels.set ci { ch with waiting_for_termination := false } }
        let r := mrcp_server_session_subrequest_remove s
        (true, r.1, r.2)
      else (true, s, SubreqAction.none)
    | Option.none => (true, s, SubreqAction.none)

/-- Modelled from the spec (§4.2): adding a command to the media-engine
task batch always succeeds, recording the command; the caller then bumps
the sub-request counter per added command. -/
def batchAdd (s : SessionM) (cmd : MpfCommand) : SessionM :=
  { s with batch := s.batch ++ [cmd] }

/-- `mrcp_server_associations_build`: read the audio media descriptor at
the slot position (null when absent), set the slot grouping tag from it
and collect the channels with a matching `cmid`.  The payload returned is
the remote media descriptor the built RTP termination descriptor refers
to. -/
def mrcp_server_associations_build (s : SessionM) (d : SessionDescriptor)
    (slot : MrcpTerminationSlot) :
    Option RtpMediaDesc × MrcpTerminationSlot :=
  match d.audio_media.getD slot.id none with
  | Option.none => (none, slot)
  | some md =>
    let slot := { slot with
      mid := md.mid,
      channels := some (s.channels.filter (fun ch => ch.cmid == md.mid)) }
    (some md, slot)

/-- `mrcp_server_associations_set`: for every channel of the slot's built
list that has an engine channel, batch `ADD_ASSOCIATION` and bump the
sub-request counter. -/
def mrcp_server_associations_set (s : SessionM)
    (slot : MrcpTerminationSlot) : SessionM :=
  (slot.channels.getD []).foldl (fun s ch =>
    match ch.engine_channel with
    | some _ =>
      mrcp_server_session_subrequest_add
        (batchAdd s MpfCommand.add_association)
    | Option.none => s) s

/-- Body of the update-existing-terminations loop of
`mrcp_server_av_media_offer_process` at index `i`. -/
def avUpdateBody (d : SessionDescriptor) (s : SessionM) (i : Nat) :
    SessionM :=
  let slot := s.terminations.getD i defaultSlot
  match slot.termination with
  | Option.none => s
  | some _ =>
    match mrcp_server_associations_build s d slot with
    | (Option.none, _) => s
    | (some _, slot) =>
      let slot := { slot with waiting := true }
      let s := { s with terminations := s.terminations.set i slot }
      let s := mrcp_server_session_subrequest_add
        (batchAdd s MpfCommand.modify_termination)
      mrcp_server_associations_set s slot

/-- Body of the add-new-terminations loop of
`mrcp_server_av_media_offer_process` at index `i`; `mpf_termination_create`
on the RTP factory is modelled as drawing a fresh termination id. -/
def avAddBody (d : SessionDescriptor) (s : SessionM) (i : Nat) : SessionM :=
  let tid := s.next_term_id
  let s := { s with next_term_id := tid + 1 }
  let slot : MrcpTerminationSlot := ⟨some tid, i, 0, none, false⟩
  match mrcp_server_associations_build s d slot with
  | (Option.none, slot) => { s with terminations := s.terminations ++ [slot] }
  | (some _, slot) =>
    let slot := { slot with waiting := true }
    let s := { s with terminations := s.terminations ++ [slot] }
    let s := mrcp_server_session_subrequest_add
      (batchAdd s (MpfCommand.add_termination true))
    mrcp_server_associations_set s slot

/-- `mrcp_server_av_media_offer_process`. -/
def mrcp_server_av_media_offer_process (s : SessionM)
    (d : SessionDescriptor) : SessionM :=
  if d.audio_media.length = 0 then s
  else
    let count := min s.terminations.length d.audio_media.length
    let s := (List.range count).foldl (avUpdateBody d) s
    (List.range' count (d.audio_media.length - count)).foldl (avAddBody d) s

/-- `mrcp_server_resource_offer_process` (the MRCPv1 setup path),
returning the status, the updated session and the offer descriptor (whose
audio media the engine termination's stream mode may have been OR-ed
into). -/
def mrcp_server_resource_offer_process (profile : ServerProfileM)
    (s : SessionM) (d : SessionDescriptor) :
    Bool × SessionM × SessionDescriptor :=
  if d.resource_state = true then
    match mrcp_server_channel_find s d.resource_name with
    | some _ => (true, s, d)
    | Option.none =>
      let count := s.channels.length
      let r := mrcp_server_channel_create profile MrcpVersion.v1 s
        d.resource_name count 0
      let channel := r.1
      let s := r.2
      if channel.resource = false then (false, s, d)
      else
        match channel.engine_channel with
        | Option.none => (true, { s with channels := s.channels ++ [channel] }, d)
        | some ec =>
          if ec.open_ok = false then
            (true, { s with channels := s.channels ++ [channel] }, d)
          else
            let s := mrcp_server_session_subrequest_add s
            match ec.termination with
            | Option.none =>
              (true, { s with channels := s.channels ++ [channel] }, d)
            | some term =>
              let s := mrcp_server_session_subrequest_add
                (batchAdd s (MpfCommand.add_termination false))
              let channel := { channel with waiting_for_termination := true }
              let d := match d.audio_media.getD 0 none with
                | some md =>
                  { d with audio_media := d.audio_media.set 0 (some { md with
                      mode_send := md.mode_send || term.mode_send,
                      mode_receive := md.mode_receive || term.mode_receive }) }
                | Option.none => d
              (true, { s with channels := s.channels ++ [channel] }, d)
  else (true, s, d)

/-- `mrcp_server_session_offer_process` for an MRCPv1 session: store the
offer, create the answer, enter ANSWERING, batch `RESET_ASSOCIATIONS`,
process the implicit resource (on failure mark the answer's
`resource_state` false and skip audio media), batch `APPLY_TOPOLOGY`,
send the batch, and send the answer at once when no sub-request is
pending. -/
def mrcp_server_session_offer_process_v1 (profile : ServerProfileM)
    (s : SessionM) (d : SessionDescriptor) : SessionM × List SigEvent :=
  let s := if s.context_created = false then { s with context_created := true }
    else s
  let s := { s with
    offer := some d, answer := some (mrcp_session_answer_create d) }
  let s := mrcp_server_session_state_set s MrcpSessionState.answering
  let s := mrcp_server_session_subrequest_add
    (batchAdd s MpfCommand.reset_associations)
  let r := mrcp_server_resource_offer_process profile s d
  let s := if r.1 = true then mrcp_server_av_media_offer_process r.2.1 r.2.2
    else { r.2.1 with
      answer := r.2.1.answer.map (fun a => { a with resource_state := false }) }
  let s := mrcp_server_session_subrequest_add
    (batchAdd s MpfCommand.apply_topology)
  if s.subrequest_count = 0 then mrcp_server_session_answer_send s
  else (s, [])

/-- The sub-request operations a session performs (claim C8): bump,
complete, and state entry. -/
inductive SubreqOp where
  | add : SubreqOp
  | remove : SubreqOp
  | set_state (st : MrcpSessionState) : SubreqOp

def applySubreqOp (s : SessionM) : SubreqOp → SessionM
  | .add => mrcp_server_session_subrequest_add s
  | .remove => (mrcp_server_session_subrequest_remove s).1
  | .set_state st => mrcp_server_session_state_set s st

def applySubreqOps (s : SessionM) (ops : List SubreqOp) : SessionM :=
  ops.foldl applySubreqOp s

/-! ### Sub-request counter safety (C8) -/

lemma subrequest_remove_fields (s : SessionM) :
    ∃ c, (mrcp_server_session_subrequest_remove s).1 =
      { s with subrequest_count := c } := by
  unfold mrcp_server_session_subrequest_remove
  by_cases h : s.subrequest_count = 0
  · exact ⟨s.subrequest_count, by rw [if_pos h]⟩
  · rw [if_neg h]
    refine ⟨s.subrequest_count - 1, ?_⟩
    dsimp only
    split
    · split <;> rfl
    · rfl

lemma subrequest_remove_count (s : SessionM) :
    (mrcp_server_session_subrequest_remove s).1.subrequest_count =
      (if s.subrequest_count = 0 then s.subrequest_count
       else s.subrequest_count - 1) := by
  unfold mrcp_server_session_subrequest_remove
  by_cases h : s.subrequest_count = 0
  · rw [if_pos h, if_pos h]
  · rw [if_neg h, if_neg h]
    dsimp only
    split
    · split <;> rfl
    · rfl

lemma subrequest_remove_answer (s : SessionM) :
    (mrcp_server_session_subrequest_remove s).1.answer = s.answer := by
  obtain ⟨c, hc⟩ := subrequest_remove_fields s
  rw [hc]

lemma state_set_count (s : SessionM) (st : MrcpSessionState) :
    (mrcp_server_session_state_set s st).subrequest_count = 0 ∨
    (mrcp_server_session_state_set s st).subrequest_count =
      s.subrequest_count := by
  unfold mrcp_server_session_state_set
  dsimp only
  split
  · exact Or.inl rfl
  · exact Or.inr rfl

lemma subreqOp_nonneg (s : SessionM) (h0 : 0 ≤ s.subrequest_count)
    (op : SubreqOp) : 0 ≤ (applySubreqOp s op).subrequest_count := by
  cases op with
  | add =>
    show 0 ≤ s.subrequest_count + 1
    omega
  | remove =>
    show 0 ≤ (mrcp_server_session_subrequest_remove s).1.subrequest_count
    rw [subrequest_remove_count]
    split <;> omega
  | set_state st =>
    show 0 ≤ (mrcp_server_session_state_set s st).subrequest_count
    rcases state_set_count s st with h | h <;> rw [h] <;> omega

lemma applySubreqOps_nonneg (ops : List SubreqOp) (s : SessionM)
    (h0 : 0 ≤ s.subrequest_count) :
    0 ≤ (applySubreqOps s ops).subrequest_count := by
  induction ops generalizing s with
  | nil => exact h0
  | cons op ops ih => exact ih _ (subreqOp_nonneg s h0 op)

/-- C8: starting from a non-negative sub-request count, no sequence of
bump / completion / state-entry operations drives `subrequest_count`
negative; a completion arriving at count zero is silently ignored (the
session is unchanged and no continuation is invoked); and entering any
session state forces a non-zero count to zero. -/
theorem C8_subrequest_count_safety (s : SessionM)
    (h0 : 0 ≤ s.subrequest_count) :
    (∀ ops : List SubreqOp,
      0 ≤ (applySubreqOps s ops).subrequest_count) ∧
    (s.subrequest_count = 0 →
      mrcp_server_session_subrequest_remove s = (s, SubreqAction.none)) ∧
    (∀ st : MrcpSessionState, s.subrequest_count ≠ 0 →
      (mrcp_server_session_state_set s st).subrequest_count = 0) := by
  refine ⟨fun ops => applySubreqOps_nonneg ops s h0, fun hz => ?_, ?_⟩
  · unfold mrcp_server_session_subrequest_remove
    rw [if_pos hz]
  · intro st hnz
    unfold mrcp_server_session_state_set
    dsimp only
    rw [if_pos hnz]

/-- Witness for C8 at the freshly created session: a completion before any
bump leaves the count at zero through an arbitrary operation sequence, the
underflowing completion itself is a no-op, and state entry after one bump
zeroes the counter. -/
theorem C8_witness :
    (0 ≤ (applySubreqOps mrcp_server_session_create
      [SubreqOp.remove, SubreqOp.add, SubreqOp.remove,
       SubreqOp.remove]).subrequest_count) ∧
    (mrcp_server_session_subrequest_remove mrcp_server_session_create =
      (mrcp_server_session_create, SubreqAction.none)) ∧
    ((mrcp_server_session_state_set
      (applySubreqOps mrcp_server_session_create [SubreqOp.add])
      MrcpSessionState.answering).subrequest_count = 0) :=
  ⟨(C8_subrequest_count_safety mrcp_server_session_create (by decide)).1
      [SubreqOp.remove, SubreqOp.add, SubreqOp.remove, SubreqOp.remove],
   (C8_subrequest_count_safety mrcp_server_session_create (by decide)).2.1
      rfl,
   (C8_subrequest_count_safety
      (applySubreqOps mrcp_server_session_create [SubreqOp.add])
      (by decide)).2.2 MrcpSessionState.answering (by decide)⟩

/-! ### Offer-time error statuses (C7) -/

lemma setAnswerStatus_status (s : SessionM) (a : SessionDescriptor)
    (ha : s.answer = some a) (st : SessionStatus) :
    (setAnswerStatus s st).answer.map (fun x => x.status) = some st := by
  simp [setAnswerStatus, ha]

/-- C7: with an answer descriptor in place, a resource name the profile
does not resolve records `NO_SUCH_RESOURCE` in the answer and yields a
channel with no engine channel; a resolved name whose engine-channel
creation fails records `UNACCEPTABLE_RESOURCE`; and an engine-channel open
completing with failure status records `UNAVAILABLE_RESOURCE`. -/
theorem C7_offer_error_statuses (profile : ServerProfileM)
    (version : MrcpVersion) (s : SessionM) (name : String) (id cmid : Nat)
    (a : SessionDescriptor) (ha : s.answer = some a) :
    (profile.resource_find name = false →
      (mrcp_server_channel_create profile version s (some name)
        id cmid).2.answer.map (fun x => x.status) =
          some SessionStatus.no_such_resource ∧
      (mrcp_server_channel_create profile version s (some name)
        id cmid).1.engine_channel = none) ∧
    (profile.resource_find name = true →
      profile.engine_create name = none →
      (mrcp_server_channel_create profile version s (some name)
        id cmid).2.answer.map (fun x => x.status) =
          some SessionStatus.unacceptable_resource) ∧
    ((mrcp_server_on_engine_channel_open s false).1.answer.map
      (fun x => x.status) = some SessionStatus.unavailable_resource) := by
  refine ⟨fun hf => ?_, fun hr he => ?_, ?_⟩
  · unfold mrcp_server_channel_create
    dsimp only
    rw [hf, if_neg (by simp)]
    exact ⟨setAnswerStatus_status s a ha _, rfl⟩
  · unfold mrcp_server_channel_create
    dsimp only
    rw [hr, he]
    dsimp only
    exact setAnswerStatus_status s a ha _
  · unfold mrcp_server_on_engine_channel_open
    rw [if_pos rfl, subrequest_remove_answer]
    exact setAnswerStatus_status s a ha _

def c7_answer : SessionDescriptor :=
  ⟨none, none, some "speechsynth", true, SessionStatus.ok, [], [], []⟩

def c7_profile : ServerProfileM :=
  ⟨fun n => n == "speechsynth", fun _ => none⟩

def c7_session : SessionM :=
  { mrcp_server_session_create with answer := some c7_answer }

/-- Witness for C7: a profile that knows only `speechsynth` but has no
engine for it, exercised on the unknown name `speechrecog`, on
`speechsynth`, and on a failed engine-channel open, at a session holding a
fresh answer. -/
theorem C7_witness :
    ((mrcp_server_channel_create c7_profile MrcpVersion.v1 c7_session
        (some "speechrecog") 0 0).2.answer.map (fun x => x.status) =
          some SessionStatus.no_such_resource ∧
      (mrcp_server_channel_create c7_profile MrcpVersion.v1 c7_session
        (some "speechrecog") 0 0).1.engine_channel = none) ∧
    ((mrcp_server_channel_create c7_profile MrcpVersion.v1 c7_session
        (some "speechsynth") 0 0).2.answer.map (fun x => x.status) =
          some SessionStatus.unacceptable_resource) ∧
    ((mrcp_server_on_engine_channel_open c7_session false).1.answer.map
      (fun x => x.status) = some SessionStatus.unavailable_resource) :=
  ⟨(C7_offer_error_statuses c7_profile MrcpVersion.v1 c7_session
      "speechrecog" 0 0 c7_answer rfl).1 rfl,
   (C7_offer_error_statuses c7_profile MrcpVersion.v1 c7_session
      "speechsynth" 0 0 c7_answer rfl).2.1 rfl rfl,
   (C7_offer_error_statuses c7_profile MrcpVersion.v1 c7_session
      "speechrecog" 0 0 c7_answer rfl).2.2⟩

/-! ### Unsolicited termination responses (C9) -/

/-- C9 (amended): a termination response whose matching RTP slot is not
`waiting` is rejected with FALSE and changes nothing; a response whose
matching engine-channel termination has `waiting_for_termination` unset,
or that matches nothing at all, also changes nothing — no counter
decrement, no answer update — but the handler returns TRUE in those
cases, not FALSE. -/
theorem C9_unsolicited_termination_responses (s : SessionM)
    (msg : MpfRespMsg) :
    (∀ si, mrcp_server_rtp_termination_find s msg.termination = some si →
      (s.terminations.getD si defaultSlot).waiting = false →
      mrcp_server_on_termination_modify s msg =
        (false, s, SubreqAction.none) ∧
      mrcp_server_on_termination_subtract s msg =
        (false, s, SubreqAction.none)) ∧
    (mrcp_server_rtp_termination_find s msg.termination = none →
      ∀ ci, mrcp_server_channel_termination_find s msg.termination =
          some ci →
        (s.channels.getD ci defaultChannel).waiting_for_termination =
          false →
        mrcp_server_on_termination_modify s msg =
          (true, s, SubreqAction.none) ∧
        mrcp_server_on_termination_subtract s msg =
          (true, s, SubreqAction.none)) ∧
    (mrcp_server_rtp_termination_find s msg.termination = none →
      mrcp_server_channel_termination_find s msg.termination = none →
      mrcp_server_on_termination_modify s msg =
        (true, s, SubreqAction.none) ∧
      mrcp_server_on_termination_subtract s msg =
        (true, s, SubreqAction.none)) := by
  refine ⟨fun si hf hw => ?_, fun hf ci hc hw => ?_, fun hf hc => ?_⟩
  · constructor
    · unfold mrcp_server_on_termination_modify
      rw [hf]
      dsimp only
      rw [hw, if_pos rfl]
    · unfold mrcp_server_on_termination_subtract
      rw [hf]
      dsimp only
      rw [hw, if_pos rfl]
  · constructor
    · unfold mrcp_server_on_termination_modify
      rw [hf]
      dsimp only
      rw [hc]
      dsimp only
      rw [hw, if_neg (by simp)]
    · unfold mrcp_server_on_termination_subtract
      rw [hf]
      dsimp only
      rw [hc]
      dsimp only
      rw [hw, if_neg (by simp)]
  · constructor
    · unfold mrcp_server_on_termination_modify
      rw [hf]
      dsimp only
      rw [hc]
    · unfold mrcp_server_on_termination_subtract
      rw [hf]
      dsimp only
      rw [hc]

def c9_channel : MrcpChannel :=
  { defaultChannel with
    resource_name := some "speechsynth", resource := true,
    engine_channel := some ⟨some ⟨5, true, false⟩, true⟩ }

def c9_session : SessionM :=
  { mrcp_server_session_create with channels := [c9_channel] }

def c9_msg : MpfRespMsg := ⟨5, none⟩

/-- C9 counterexample: an unsolicited termination response that matches an
engine-channel termination whose `waiting_for_termination` flag is unset
leaves the session untouched, but the handlers return TRUE — the claim
says every unsolicited completion is answered with FALSE. -/
theorem C9_counterexample :
    mrcp_server_rtp_termination_find c9_session c9_msg.termination =
      none ∧
    mrcp_server_channel_termination_find c9_session c9_msg.termination =
      some 0 ∧
    (c9_session.channels.getD 0 defaultChannel).waiting_for_termination =
      false ∧
    mrcp_server_on_termination_modify c9_session c9_msg =
      (true, c9_session, SubreqAction.none) ∧
    mrcp_server_on_termination_subtract c9_session c9_msg =
      (true, c9_session, SubreqAction.none) := by
  refine ⟨rfl, rfl, rfl, ?_, ?_⟩ <;> rfl

def c9w_session : SessionM :=
  { mrcp_server_session_create with
    terminations := [⟨some 3, 0, 0, none, false⟩] }

def c9w_msg : MpfRespMsg := ⟨3, none⟩

/-- Witness for C9 at a session with one non-waiting RTP slot: the
handlers reject its duplicate completion with FALSE and leave the session
unchanged. -/
theorem C9_witness :
    mrcp_server_on_termination_modify c9w_session c9w_msg =
      (false, c9w_session, SubreqAction.none) ∧
    mrcp_server_on_termination_subtract c9w_session c9w_msg =
      (false, c9w_session, SubreqAction.none) :=
  (C9_unsolicited_termination_responses c9w_session c9w_msg).1 0 rfl rfl

/-! ### Signaling-message serialization (C2) -/

lemma sigRun_cons (s : SessionM) (e : SigExtEvent)
    (es : List SigExtEvent) :
    sigRun s (e :: es) =
      ((sigRun (sigStep s e).1 es).1,
       (sigStep s e).2 ++ (sigRun (sigStep s e).1 es).2) := rfl

lemma sig_process_active (s : SessionM) (m om : SigMsg)
    (ha : s.active_request = some om) :
    mrcp_server_signaling_message_process s m =
      ({ s with request_queue := s.request_queue ++ [m] }, []) := by
  unfold mrcp_server_signaling_message_process
  rw [ha]
  rfl

lemma answer_send_active (s : SessionM) (om : SigMsg)
    (ha : s.active_request = some om) :
    mrcp_server_session_answer_send s =
      ({ s with
         offer := none, answer := none,
         active_request := s.request_queue.head?,
         request_queue := s.request_queue.tail },
       SigEvent.answer_sent om ::
         (s.request_queue.head?.map SigEvent.dispatched).toList) := by
  unfold mrcp_server_session_answer_send
  rw [ha]
  dsimp only
  cases hq : s.request_queue.head? <;> simp [hq]

/-- While a message is active, every event of any subsequent run is
preceded by that message's answer: arrivals queue silently, so the trace
is empty until the first completion, which emits the answer first. -/
lemma sigRun_active_covers (om : SigMsg) (b : SigEvent) :
    ∀ (es : List SigExtEvent) (s : SessionM),
      s.active_request = some om →
      eventPrecedes (SigEvent.answer_sent om) b (sigRun s es).2 := by
  intro es
  induction es with
  | nil =>
    intro s ha p t hpt hb
    have hp : p = [] := (List.append_eq_nil.mp hpt).1
    rw [hp] at hb
    exact absurd hb (by simp)
  | cons e es ih =>
    intro s ha p t hpt hb
    cases e with
    | arrive m =>
      rw [sigRun_cons] at hpt
      have hstep : sigStep s (SigExtEvent.arrive m) =
          ({ s with request_queue := s.request_queue ++ [m] }, []) :=
        sig_process_active s m om ha
      rw [hstep] at hpt
      dsimp only at hpt
      rw [List.nil_append] at hpt
      exact ih { s with request_queue := s.request_queue ++ [m] } ha p t
        hpt hb
    | complete =>
      rw [sigRun_cons] at hpt
      have hstep : sigStep s SigExtEvent.complete =
          mrcp_server_session_answer_send s := rfl
      rw [hstep, answer_send_active s om ha] at hpt
      dsimp only at hpt
      rw [List.cons_append] at hpt
      cases p with
      | nil => exact absurd hb (by simp)
      | cons hd p =>
        rw [List.cons_append] at hpt
        injection hpt with h1 h2
        rw [h1]
        exact List.mem_cons_self _ _

/-- C2: a message arriving while another is active is appended to the FIFO
queue with no event; completing the active message sends its answer,
clears the stored offer/answer, pops the queue head and dispatches it; and
in any run starting with a message `om` active, every later event —
including the dispatch and the answer of a message `tm` arriving in
flight — is preceded in the trace by `om`'s answer. -/
theorem C2_signaling_serialization (s : SessionM) (m om tm : SigMsg)
    (es : List SigExtEvent) (ha : s.active_request = some om) :
    mrcp_server_signaling_message_process s m =
      ({ s with request_queue := s.request_queue ++ [m] }, []) ∧
    mrcp_server_session_answer_send s =
      ({ s with
         offer := none, answer := none,
         active_request := s.request_queue.head?,
         request_queue := s.request_queue.tail },
       SigEvent.answer_sent om ::
         (s.request_queue.head?.map SigEvent.dispatched).toList) ∧
    eventPrecedes (SigEvent.answer_sent om) (SigEvent.dispatched tm)
      (sigRun s (SigExtEvent.arrive tm :: es)).2 ∧
    eventPrecedes (SigEvent.answer_sent om) (SigEvent.answer_sent tm)
      (sigRun s (SigExtEvent.arrive tm :: es)).2 :=
  ⟨sig_process_active s m om ha, answer_send_active s om ha,
   sigRun_active_covers om (SigEvent.dispatched tm)
     (SigExtEvent.arrive tm :: es) s ha,
   sigRun_active_covers om (SigEvent.answer_sent tm)
     (SigExtEvent.arrive tm :: es) s ha⟩

def sig_offer : SigMsg := ⟨1, SigMsgType.offer⟩

def sig_term : SigMsg := ⟨2, SigMsgType.terminate⟩

def c2_session : SessionM :=
  { mrcp_server_session_create with active_request := some sig_offer }

/-- Witness for C2: with an OFFER active, an arriving TERMINATE is queued
with no event, and in the run where the OFFER completes and then the
TERMINATE completes, every prefix of the trace containing the TERMINATE
dispatch already contains the OFFER's answer. -/
theorem C2_witness :
    mrcp_server_signaling_message_process c2_session sig_term =
      ({ c2_session with request_queue := [sig_term] }, []) ∧
    SigEvent.answer_sent sig_offer ∈
      [SigEvent.answer_sent sig_offer, SigEvent.dispatched sig_term] :=
  ⟨(C2_signaling_serialization c2_session sig_term sig_offer sig_term
      [SigExtEvent.complete, SigExtEvent.complete] rfl).1,
   (C2_signaling_serialization c2_session sig_term sig_offer sig_term
      [SigExtEvent.complete, SigExtEvent.complete] rfl).2.2.1
     [SigEvent.answer_sent sig_offer, SigEvent.dispatched sig_term]
     [SigEvent.answer_sent sig_term] (by decide) (by decide)⟩

/-! ### MRCPv1 offer with failed resource (C10) -/

lemma state_set_count_zero (s : SessionM) (st : MrcpSessionState) :
    (mrcp_server_session_state_set s st).subrequest_count = 0 := by
  unfold mrcp_server_session_state_set
  dsimp only
  split
  · rfl
  · next h =>
    show s.subrequest_count = 0
    omega

lemma state_set_other (s : SessionM) (st : MrcpSessionState) :
    (mrcp_server_session_state_set s st).channels = s.channels ∧
    (mrcp_server_session_state_set s st).terminations = s.terminations ∧
    (mrcp_server_session_state_set s st).batch = s.batch ∧
    (mrcp_server_session_state_set s st).answer = s.answer := by
  unfold mrcp_server_session_state_set
  dsimp only
  split <;> exact ⟨rfl, rfl, rfl, rfl⟩

lemma channel_find_channels (s s' : SessionM)
    (h : s.channels = s'.channels) (name : Option String) :
    mrcp_server_channel_find s name = mrcp_server_channel_find s' name := by
  unfold mrcp_server_channel_find
  cases name with
  | none => rfl
  | some n => rw [h]

/-- The MRCPv1 resource-offer path when the offered resource name resolves
to no known resource: the freshly created channel has no resource handle,
so the processing fails after recording `NO_SUCH_RESOURCE`, adding no
channel and batching nothing. -/
lemma resource_offer_fail (profile : ServerProfileM) (s : SessionM)
    (d : SessionDescriptor) (hstate : d.resource_state = true)
    (hchan : mrcp_server_channel_find s d.resource_name = none)
    (hfind : ∀ name, d.resource_name = some name →
      profile.resource_find name = false) :
    mrcp_server_resource_offer_process profile s d =
      (false, setAnswerStatus s SessionStatus.no_such_resource, d) := by
  unfold mrcp_server_resource_offer_process
  rw [if_pos hstate, hchan]
  dsimp only
  cases hrn : d.resource_name with
  | none =>
    rw [mrcp_server_channel_create]
    rfl
  | some name =>
    rw [mrcp_server_channel_create]
    dsimp only
    rw [hfind name hrn, if_neg (show ¬(false = true) by simp)]
    rfl

set_option maxHeartbeats 1000000 in
/-- C10: an MRCPv1 offer with `resource_state` set, no existing channel
for the offered resource name, and a name the profile cannot resolve
yields an answer with `resource_state` FALSE, an unchanged termination
list (no RTP termination is created), and a task batch extended by
exactly `RESET_ASSOCIATIONS` and `APPLY_TOPOLOGY` — no termination or
association command is batched for any audio media line. -/
theorem C10_v1_offer_resource_failure (profile : ServerProfileM)
    (s : SessionM) (d : SessionDescriptor)
    (hstate : d.resource_state = true)
    (hchan : mrcp_server_channel_find s d.resource_name = none)
    (hfind : ∀ name, d.resource_name = some name →
      profile.resource_find name = false) :
    (mrcp_server_session_offer_process_v1 profile s d).1.answer.map
      (fun a => a.resource_state) = some false ∧
    (mrcp_server_session_offer_process_v1 profile s d).1.terminations =
      s.terminations ∧
    (mrcp_server_session_offer_process_v1 profile s d).1.batch =
      s.batch ++ [MpfCommand.reset_associations,
        MpfCommand.apply_topology] := by
  unfold mrcp_server_session_offer_process_v1
  dsimp only
  set s1 : SessionM := if s.context_created = false then
    { s with context_created := true } else s with hs1
  have h1c : s1.channels = s.channels := by rw [hs1]; split <;> rfl
  have h1t : s1.terminations = s.terminations := by rw [hs1]; split <;> rfl
  have h1b : s1.batch = s.batch := by rw [hs1]; split <;> rfl
  set s3 : SessionM := mrcp_server_session_state_set
    { s1 with offer := some d, answer := some (mrcp_session_answer_create d) }
    MrcpSessionState.answering with hs3
  obtain ⟨h3c, h3t, h3b, h3a⟩ := state_set_other
    { s1 with offer := some d, answer := some (mrcp_session_answer_create d) }
    MrcpSessionState.answering
  have h3cnt := state_set_count_zero
    { s1 with offer := some d, answer := some (mrcp_session_answer_create d) }
    MrcpSessionState.answering
  rw [← hs3] at h3c h3t h3b h3a h3cnt
  dsimp only at h3c h3t h3b h3a
  have hcf : mrcp_server_channel_find
      (mrcp_server_session_subrequest_add (batchAdd s3
        MpfCommand.reset_associations)) d.resource_name = none :=
    (channel_find_channels _ s
      (show (mrcp_server_session_subrequest_add (batchAdd s3
        MpfCommand.reset_associations)).channels = s.channels from
        h3c.trans h1c) d.resource_name).trans hchan
  rw [resource_offer_fail profile
    (mrcp_server_session_subrequest_add (batchAdd s3
      MpfCommand.reset_associations)) d hstate hcf hfind]
  dsimp only
  rw [if_neg (show ¬(false = true) by simp)]
  have h4a : (mrcp_server_session_subrequest_add (batchAdd s3
      MpfCommand.reset_associations)).answer =
      some (mrcp_session_answer_create d) := h3a
  have h5a : (setAnswerStatus (mrcp_server_session_subrequest_add
      (batchAdd s3 MpfCommand.reset_associations))
      SessionStatus.no_such_resource).answer =
      some { mrcp_session_answer_create d with
        status := SessionStatus.no_such_resource } := by
    unfold setAnswerStatus
    dsimp only
    rw [h4a]
    rfl
  have hcond : ¬((mrcp_server_session_subrequest_add (batchAdd
      { setAnswerStatus (mrcp_server_session_subrequest_add (batchAdd s3
          MpfCommand.reset_associations)) SessionStatus.no_such_resource with
        answer := (setAnswerStatus (mrcp_server_session_subrequest_add
          (batchAdd s3 MpfCommand.reset_associations))
          SessionStatus.no_such_resource).answer.map
          (fun a => { a with resource_state := false }) }
      MpfCommand.apply_topology)).subrequest_count = 0) := by
    show ¬(s3.subrequest_count + 1 + 1 = 0)
    rw [h3cnt]
    omega
  rw [if_neg hcond]
  dsimp only
  refine ⟨?_, ?_, ?_⟩
  · show ((setAnswerStatus (mrcp_server_session_subrequest_add
        (batchAdd s3 MpfCommand.reset_associations))
        SessionStatus.no_such_resource).answer.map
        (fun a => { a with resource_state := false })).map
        (fun a => a.resource_state) = some false
    rw [h5a]
    rfl
  · show s3.terminations = s.terminations
    exact h3t.trans h1t
  · show (s3.batch ++ [MpfCommand.reset_associations]) ++
        [MpfCommand.apply_topology] =
      s.batch ++ [MpfCommand.reset_associations, MpfCommand.apply_topology]
    rw [h3b, h1b, List.append_assoc]
    rfl

def c10_profile : ServerProfileM := ⟨fun _ => false, fun _ => none⟩

def c10_offer : SessionDescriptor :=
  ⟨none, none, some "speechsynth", true, SessionStatus.ok, [],
   [some ⟨7, some "10.0.0.1", none, true, true⟩], []⟩

/-- Witness for C10: a fresh session offered one audio line and a resource
name no profile entry resolves. -/
theorem C10_witness :
    (mrcp_server_session_offer_process_v1 c10_profile
      mrcp_server_session_create c10_offer).1.answer.map
      (fun a => a.resource_state) = some false ∧
    (mrcp_server_session_offer_process_v1 c10_profile
      mrcp_server_session_create c10_offer).1.terminations =
      mrcp_server_session_create.terminations ∧
    (mrcp_server_session_offer_process_v1 c10_profile
      mrcp_server_session_create c10_offer).1.batch =
      mrcp_server_session_create.batch ++
        [MpfCommand.reset_associations, MpfCommand.apply_topology] :=
  C10_v1_offer_resource_failure c10_profile mrcp_server_session_create
    c10_offer rfl rfl (fun name h => rfl)

end UniMrcp
